import Mathlib

/-!
Verification development for the `pg_jalali_calendar` extension
(`src/lib.rs`): Jalali (Persian) / Gregorian calendar conversion,
day and month arithmetic, signed date difference, and the period
classifier.

Date texts are modelled as `List Char`.  The splitting, integer
parsing (Rust `str::parse::<i32>` / `str::parse::<u8>`) and the
zero-padded formatting (`{:0>4}` / `{:0>2}`) are embedded directly
from the source.  The calendar engine itself lives in external
libraries (`icu_calendar`, `chrono`, `date_component`), so it is
modelled from the spec: a day-count pivot, the arithmetic Persian
leap rule (fixed 33-year cycle, §4.2/§9 of the spec), the fixed
31/30/29-or-30 Persian month lengths, and the proleptic Gregorian
calendar.  All functions that can fail (Rust panics) return `Option`.
-/

set_option maxHeartbeats 1000000

/-- A raw calendar date in the Persian (Jalali) calendar: year, month, day. -/
structure PDate where
  y : Int
  m : Nat
  d : Nat
deriving DecidableEq, Repr

/-- A raw calendar date in the Gregorian (ISO) calendar: year, month, day. -/
structure GDate where
  y : Int
  m : Nat
  d : Nat
deriving DecidableEq, Repr

/-! ## Text primitives: splitting, Rust integer parsing, zero-padded formatting -/

/-- Splitting a character list on a separator, matching Rust `str::split`:
`""` yields one empty segment, consecutive separators yield empty segments. -/
def splitOnChar (sep : Char) : List Char → List (List Char)
  | [] => [[]]
  | c :: cs =>
    if c = sep then [] :: splitOnChar sep cs
    else
      match splitOnChar sep cs with
      | [] => [[c]]
      | h :: t => (c :: h) :: t

/-- Accumulating decimal-digit reader: fails on the first non-digit character. -/
def parseDigitsGo : List Char → Nat → Option Nat
  | [], acc => some acc
  | c :: cs, acc =>
    if 48 ≤ c.toNat ∧ c.toNat ≤ 57 then parseDigitsGo cs (10 * acc + (c.toNat - 48))
    else none

/-- Reads a non-empty all-digit character list as a natural number. -/
def parseDigits (l : List Char) : Option Nat :=
  if l = [] then none else parseDigitsGo l 0

/-- Rust `str::parse::<i32>`: optional leading `+` or `-` sign, then decimal
digits; fails when empty, on a stray character, or outside the `i32` range. -/
def parseI32 : List Char → Option Int
  | [] => none
  | c :: cs =>
    if c = '+' then
      (parseDigits cs).bind fun n => if (n : Int) ≤ 2147483647 then some (n : Int) else none
    else if c = '-' then
      (parseDigits cs).bind fun n => if (n : Int) ≤ 2147483648 then some (-(n : Int)) else none
    else
      (parseDigits (c :: cs)).bind fun n => if (n : Int) ≤ 2147483647 then some (n : Int) else none

/-- Rust `str::parse::<u8>`: optional leading `+` sign (a `-` sign is rejected
for unsigned types), then decimal digits; fails above 255. -/
def parseU8 : List Char → Option Nat
  | [] => none
  | c :: cs =>
    if c = '+' then
      (parseDigits cs).bind fun n => if n ≤ 255 then some n else none
    else
      (parseDigits (c :: cs)).bind fun n => if n ≤ 255 then some n else none

/-- Fuel-driven digit renderer; the fuel only needs to be at least the number
being rendered, and the value itself is always enough. -/
def natToCharsGo : Nat → Nat → List Char
  | 0, n => [Nat.digitChar n]
  | fuel + 1, n =>
    if n < 10 then [Nat.digitChar n]
    else natToCharsGo fuel (n / 10) ++ [Nat.digitChar (n % 10)]

/-- Decimal digit characters of a natural number, most significant first. -/
def natToChars (n : Nat) : List Char :=
  natToCharsGo n n

/-- Rust `{:0>w}` fill-align padding: left-pad with `'0'` to width `w`.
The fill applies to the whole rendered string, sign included, so `-5`
padded to width 4 renders as `00-5`. -/
def padZeros (w : Nat) (l : List Char) : List Char :=
  List.replicate (w - l.length) '0' ++ l

/-- Rendering of an `i32` value as Rust `Display` does: optional `-` sign
followed by the decimal digits. -/
def i32Render (y : Int) : List Char :=
  if y < 0 then '-' :: natToChars y.natAbs else natToChars y.toNat

/-- Three segments joined by a separator character. -/
def sep3 (sep : Char) (a b c : List Char) : List Char :=
  a ++ sep :: (b ++ sep :: c)

/-! ## Calendar core

Modelled from the spec: the external calendar library is specified in §2–§4
as a day-count pivot together with the Persian month lengths (31/30/29-or-30)
and a Persian leap-year rule; §9 fixes the concrete choice here to the
33-year arithmetic cycle.  `rd` denotes Rata Die: day 1 is Gregorian
0001-01-01, so the Unix epoch 1970-01-01 is day 719163 and the Persian
epoch 0001-01-01 is day 226895 (Gregorian 0622-03-21). -/

/-- Modelled from the spec: the Persian Leap-Year Rule (§4.2), using the
fixed 33-year arithmetic cycle named in §9: year `y` is leap exactly when
`(25*y + 11) mod 33 < 8`. -/
def persianLeap (y : Int) : Bool :=
  decide ((25 * y + 11) % 33 < 8)

/-- Modelled from the spec: Persian month lengths (§3): months 1–6 have 31
days, months 7–11 have 30 days, month 12 has 30 days in a leap year and 29
otherwise. -/
def persianMonthLen (y : Int) (m : Nat) : Nat :=
  if m ≤ 6 then 31 else if m ≤ 11 then 30 else if persianLeap y then 30 else 29

/-- Days of the Persian year that precede month `m`. -/
def pMonthOff (m : Nat) : Nat :=
  if m ≤ 7 then 31 * (m - 1) else 30 * (m - 1) + 6

/-- Modelled from the spec: the day-count pivot (§3 `DayCount`) of a Persian
date, Rata Die. -/
def rdFromPersian (p : PDate) : Int :=
  226894 + 365 * (p.y - 1) + (8 * p.y + 21) / 33 + pMonthOff p.m + p.d

/-- Day count (relative to Persian 0001-01-01) of Farvardin 1 of Persian
year `y`. -/
def persianNewYearN (y : Int) : Int :=
  365 * (y - 1) + (8 * y + 21) / 33

/-- The Persian year containing relative day count `n`. -/
def persianYearFromFixed (n : Int) : Int :=
  (33 * n + 12056) / 12053

/-- Modelled from the spec: reconstruction of a Persian date from the
day-count pivot (§4.3, inverse direction of the pivot). -/
def persianFromFixed (rd : Int) : PDate :=
  let n := rd - 226895
  let y := persianYearFromFixed n
  let off := (n - persianNewYearN y).toNat
  if off < 186 then ⟨y, off / 31 + 1, off % 31 + 1⟩
  else ⟨y, (off - 186) / 30 + 7, (off - 186) % 30 + 1⟩

/-- Proleptic Gregorian leap year. -/
def gregLeap (y : Int) : Bool :=
  (decide (y % 4 = 0) && !decide (y % 100 = 0)) || decide (y % 400 = 0)

/-- Gregorian month lengths under the proleptic rule. -/
def gregMonthLen (y : Int) (m : Nat) : Nat :=
  if m = 2 then (if gregLeap y then 29 else 28)
  else if m = 4 ∨ m = 6 ∨ m = 9 ∨ m = 11 then 30 else 31

/-- Modelled from the spec: the day-count pivot of a proleptic Gregorian
date (§4.3), Rata Die with day 1 = 0001-01-01. -/
def rdFromGregorian (g : GDate) : Int :=
  let yy : Int := if g.m ≤ 2 then g.y - 1 else g.y
  let era := yy / 400
  let yoe := yy - era * 400
  let mp : Int := if 3 ≤ g.m then (g.m : Int) - 3 else (g.m : Int) + 9
  let doy := (153 * mp + 2) / 5 + g.d - 1
  let doe := yoe * 365 + yoe / 4 - yoe / 100 + doy
  era * 146097 + doe - 305

/-- Modelled from the spec: reconstruction of a proleptic Gregorian date
from the day-count pivot (§4.3, inverse direction of the pivot).  The year
is found by peeling off 400-year eras, then centuries, 4-year blocks and
single years inside the era, counting March-based years so that the leap
day falls last. -/
def gregorianFromFixed (rd : Int) : GDate :=
  let z := rd + 305
  let era := z / 146097
  let doe := z - era * 146097
  let w := min 3 (doe / 36524)
  let d1 := doe - 36524 * w
  let x := min 24 (d1 / 1461)
  let d2 := d1 - 1461 * x
  let v := min 3 (d2 / 365)
  let doy := d2 - 365 * v
  let yoe := 100 * w + 4 * x + v
  let mp := (5 * doy + 2) / 153
  let dd := doy - (153 * mp + 2) / 5 + 1
  let mm : Int := if mp < 10 then mp + 3 else mp - 9
  if mm ≤ 2 then ⟨era * 400 + yoe + 1, mm.toNat, dd.toNat⟩ else ⟨era * 400 + yoe, mm.toNat, dd.toNat⟩

/-- Validity of a Persian date (§3 invariants). -/
def PDate.valid (p : PDate) : Prop :=
  1 ≤ p.m ∧ p.m ≤ 12 ∧ 1 ≤ p.d ∧ p.d ≤ persianMonthLen p.y p.m

instance (p : PDate) : Decidable p.valid := by unfold PDate.valid; infer_instance

/-- Validity of a Gregorian date (§3 invariants, proleptic rule). -/
def GDate.valid (g : GDate) : Prop :=
  1 ≤ g.m ∧ g.m ≤ 12 ∧ 1 ≤ g.d ∧ g.d ≤ gregMonthLen g.y g.m

instance (g : GDate) : Decidable g.valid := by unfold GDate.valid; infer_instance

/-- `icu` `Date::try_new_persian_date`: month and day are validated against
the Persian calendar invariants, the year is unconstrained. -/
def tryNewPersianDate (y : Int) (m d : Nat) : Option PDate :=
  if 1 ≤ m ∧ m ≤ 12 ∧ 1 ≤ d ∧ d ≤ persianMonthLen y m then some ⟨y, m, d⟩ else none

/-- `icu` `Date::try_new_gregorian_date` / `try_new_iso_date`: month and day
are validated against the proleptic Gregorian invariants. -/
def tryNewGregorianDate (y : Int) (m d : Nat) : Option GDate :=
  if 1 ≤ m ∧ m ≤ 12 ∧ 1 ≤ d ∧ d ≤ gregMonthLen y m then some ⟨y, m, d⟩ else none

/-! ## The program's functions (from `src/lib.rs`) -/

/-- `jalali_date_parse_raw` (src/lib.rs:9): split on `/`, require exactly
three segments, read year as `i32` and month/day as `u8`; each panic is
modelled as `none`. -/
def jalali_date_parse_raw (s : List Char) : Option (Int × Nat × Nat) :=
  match splitOnChar '/' s with
  | [a, b, c] => do
    let y ← parseI32 a
    let m ← parseU8 b
    let d ← parseU8 c
    pure (y, m, d)
  | _ => none

/-- `jalali_date_parse` (src/lib.rs:30): raw parse then Persian calendar
validation. -/
def jalali_date_parse (s : List Char) : Option PDate :=
  (jalali_date_parse_raw s).bind fun v => tryNewPersianDate v.1 v.2.1 v.2.2

/-- `jalali_date_to_gregorian_internal` (src/lib.rs:38): parse and convert
to the ISO (Gregorian) calendar through the day-count pivot. -/
def jalali_date_to_gregorian_internal (s : List Char) : Option GDate :=
  (jalali_date_parse s).map fun p => gregorianFromFixed (rdFromPersian p)

/-- The canonical Jalali text format `{:0>4}/{:0>2}/{:0>2}` used by every
output path of the extension. -/
def formatJalali (p : PDate) : List Char :=
  sep3 '/' (padZeros 4 (i32Render p.y)) (padZeros 2 (natToChars p.m)) (padZeros 2 (natToChars p.d))

/-- The canonical Gregorian text format `{:0>4}-{:0>2}-{:0>2}`. -/
def formatGregorian (g : GDate) : List Char :=
  sep3 '-' (padZeros 4 (i32Render g.y)) (padZeros 2 (natToChars g.m)) (padZeros 2 (natToChars g.d))

/-- `jalali_date_to_gregorian` (src/lib.rs:81). -/
def jalali_date_to_gregorian (s : List Char) : Option (List Char) :=
  (jalali_date_to_gregorian_internal s).map formatGregorian

/-- `chrono` `NaiveDate` year range: `i32::MIN >> 13` to `i32::MAX >> 13`. -/
def chronoYearOK (y : Int) : Prop :=
  -262144 ≤ y ∧ y ≤ 262143

instance (y : Int) : Decidable (chronoYearOK y) := by unfold chronoYearOK; infer_instance

/-- Day count of the smallest `chrono` `NaiveDate`, `(-262144)-01-01`. -/
def rdMinChrono : Int := rdFromGregorian ⟨-262144, 1, 1⟩

/-- Day count of the largest `chrono` `NaiveDate`, `262143-12-31`. -/
def rdMaxChrono : Int := rdFromGregorian ⟨262143, 12, 31⟩

/-- Modelled from the spec: `date_component::calculate`'s `interval_days`
field, the unsigned whole-day span between the two instants (§4.4). -/
def dateComponentIntervalDays (u1 u2 : Int) : Nat :=
  (u2 - u1).natAbs

/-- Modelled from the spec: `date_component::calculate`'s `invert` flag,
true when the end instant precedes the start instant (§4.4). -/
def dateComponentInvert (u1 u2 : Int) : Bool :=
  decide (u2 < u1)

/-- Two's-complement wrap-around of an `i32` value or operation result, the
release-mode Rust semantics of an overflowing cast, addition or
multiplication. -/
def i32Wrap (i : Int) : Int :=
  (i + 2147483648) % 4294967296 - 2147483648

/-- `jalali_date_diff_with_addition` (src/lib.rs:43): convert both Jalali
texts to Gregorian, rebuild them as UTC midnights (which requires the
`chrono` year range), take the component interval and apply
`(interval_days as i32 + addition) * (if invert then -1 else 1)`, where the
`as i32` cast, the addition and the multiplication each wrap on `i32`
overflow. -/
def jalali_date_diff_with_addition (s1 s2 : List Char) (a : Int) : Option Int := do
  let g1 ← jalali_date_to_gregorian_internal s1
  let g2 ← jalali_date_to_gregorian_internal s2
  if chronoYearOK g1.y ∧ chronoYearOK g2.y then
    some (i32Wrap (i32Wrap
      (i32Wrap (dateComponentIntervalDays (rdFromGregorian g1) (rdFromGregorian g2) : Int) + a) *
      (if dateComponentInvert (rdFromGregorian g1) (rdFromGregorian g2) then -1 else 1)))
  else none

/-- `jalali_date_diff` (src/lib.rs:76). -/
def jalali_date_diff (s1 s2 : List Char) : Option Int :=
  jalali_date_diff_with_addition s1 s2 0

/-- `jalali_date_add_days_internal` (src/lib.rs:91): convert to ISO, build a
`chrono` `NaiveDate` (year-range check), add or subtract the day count
(range check on the result), convert back to the Persian calendar. -/
def jalali_date_add_days_internal (s : List Char) (n : Int) : Option PDate := do
  let g ← jalali_date_to_gregorian_internal s
  if chronoYearOK g.y then
    if rdMinChrono ≤ rdFromGregorian g + n ∧ rdFromGregorian g + n ≤ rdMaxChrono then
      some (persianFromFixed (rdFromGregorian g + n))
    else none
  else none

/-- `jalali_date_add_days` (src/lib.rs:124). -/
def jalali_date_add_days (s : List Char) (n : Int) : Option (List Char) :=
  (jalali_date_add_days_internal s n).map formatJalali

/-- The year/month carry of `jalali_date_add_months` (src/lib.rs:147–163):
`year + months div 12` and `month + months mod 12`, rolling a raw month
above 12 into the next year.  The two year additions are `i32` additions and
wrap on overflow; the month addition is on `u8` but its operands are at most
12 and 11 after validation, so it never wraps. -/
def addMonthsYM (y : Int) (m : Nat) (months : Int) : Int × Nat :=
  let yr := if 0 ≤ months then i32Wrap (y + months / 12) else i32Wrap (y - (-months) / 12)
  let mr := if 0 ≤ months then m + (months % 12).toNat else m - ((-months) % 12).toNat
  if mr > 12 then (i32Wrap (yr + 1), mr - 12) else (yr, mr)

/-- The day clamp of `jalali_date_add_months` (src/lib.rs:170–178), keyed on
the destination year's leap status. -/
def addMonthsClampDay (ny : Int) (nm d : Nat) : Nat :=
  if (persianLeap ny = true ∧ nm = 12 ∧ 29 < d) ∨ (6 < nm ∧ nm < 12 ∧ 30 < d) then 30
  else if nm = 12 ∧ 29 < d then 29 else d

/-- `jalali_date_add_months` (src/lib.rs:135): parse and validate the date,
reject non-positive `months`, carry year/month, validate Farvardin 1 of the
destination year, clamp the day, format. -/
def jalali_date_add_months (s : List Char) (months : Int) : Option (List Char) := do
  let (y, m, d) ← jalali_date_parse_raw s
  let _ ← tryNewPersianDate y m d
  if months ≤ 0 then none
  else
    let ym := addMonthsYM y m months
    let _ ← tryNewPersianDate ym.1 1 1
    some (formatJalali ⟨ym.1, ym.2, addMonthsClampDay ym.1 ym.2 d⟩)

/-- `jalali_date_now` (src/lib.rs:183), parameterized by the Gregorian
year/month/day the system clock reports: validate it as an ISO date and
convert to a Jalali text. -/
def jalali_date_now (g : GDate) : Option (List Char) :=
  (tryNewGregorianDate g.y g.m g.d).map fun g2 =>
    formatJalali (persianFromFixed (rdFromGregorian g2))

/-- The Gregorian-side parse of `gregorian_date_to_jalali` (src/lib.rs:200–221):
split on `-`, three segments, `i32`/`u8`/`u8`, Gregorian validation. -/
def gregorian_date_parse (s : List Char) : Option GDate :=
  match splitOnChar '-' s with
  | [a, b, c] => do
    let y ← parseI32 a
    let m ← parseU8 b
    let d ← parseU8 c
    tryNewGregorianDate y m d
  | _ => none

/-- `gregorian_date_to_jalali` (src/lib.rs:199). -/
def gregorian_date_to_jalali (s : List Char) : Option (List Char) :=
  (gregorian_date_parse s).map fun g =>
    formatJalali (persianFromFixed (rdFromGregorian g))

/-- `jalali_date_is_leap_year` (src/lib.rs:278). -/
def jalali_date_is_leap_year (s : List Char) : Option Bool :=
  (jalali_date_parse s).map fun p => persianLeap p.y

/-- `icu_collections` `TrieValue::to_u32` on an `i32`: the primitive
two's-complement cast `as u32`. -/
def i32ToU32 (i : Int) : Nat :=
  (i % 4294967296).toNat

/-- The inductive period classification of §4.5. -/
inductive PState where
  | Start
  | End
  | Middle
  | Unknown
deriving DecidableEq, Repr

/-- The text the extension returns for each period classification. -/
def pstateText : PState → List Char
  | .Start => ['S', 't', 'a', 'r', 't']
  | .End => ['E', 'n', 'd']
  | .Middle => ['M', 'i', 'd', 'd', 'l', 'e']
  | .Unknown => ['U', 'n', 'k', 'n', 'o', 'w', 'n']

/-- `jalali_date_period_state` (src/lib.rs:234).  The `start` argument is the
raw `i32` anchor; every comparison against the day of month goes through the
`to_u32` cast.  The `month == 1` branch evaluates the previous day through
`jalali_date_add_days_internal` only when `start < 30` (the `||`
short-circuits), so that call's panics surface as `none` here. -/
def jalali_date_period_state (s : List Char) (start : Int) : Option (List Char) :=
  match jalali_date_parse s with
  | none => none
  | some dv =>
    let u : Nat := i32ToU32 start
    let monthEnd :=
      (dv.d = 29 ∧ dv.m = 12 ∧ persianLeap dv.y = false) ∨
      (dv.d = 30 ∧ 7 ≤ dv.m ∧ (dv.m ≤ 11 ∨ (dv.m = 12 ∧ persianLeap dv.y = true))) ∨
      (dv.d = 31 ∧ dv.m ≤ 6)
    let step45 : Option (List Char) :=
      if 1 ≤ start ∧ start ≤ 31 then
        if dv.d = u then some (pstateText .End)
        else if dv.d = u + 1 then some (pstateText .Start)
        else some (pstateText .Middle)
      else some (pstateText .Unknown)
    if monthEnd ∧ dv.d ≤ u then some (pstateText .End)
    else if dv.d = 1 then
      if dv.m = 1 then
        if 30 ≤ start then some (pstateText .Start)
        else
          match jalali_date_add_days_internal s (-1) with
          | none => none
          | some prev => if u = prev.d then some (pstateText .Start) else step45
      else if (2 ≤ dv.m ∧ dv.m ≤ 7 ∧ start = 31) ∨ (8 ≤ dv.m ∧ dv.m ≤ 12 ∧ 30 ≤ start) then
        some (pstateText .Start)
      else step45
    else step45

/-- Modelled from the spec: the five-step cascade of §4.5, with plain integer
comparisons between the day and `anchorDay`, and with the "day-of-month of
the immediately preceding day" of Farvardin 1 of year `y` being the length
of month 12 of year `y - 1`. -/
def specPeriodState (p : PDate) (anchor : Int) : PState :=
  let monthEnd :=
    (p.m = 12 ∧ p.d = 29 ∧ persianLeap p.y = false) ∨
    (p.d = 30 ∧ (7 ≤ p.m ∧ p.m ≤ 11 ∨ (p.m = 12 ∧ persianLeap p.y = true))) ∨
    (p.d = 31 ∧ 1 ≤ p.m ∧ p.m ≤ 6)
  if monthEnd ∧ (p.d : Int) ≤ anchor then .End
  else if p.d = 1 ∧ p.m = 1 ∧ (30 ≤ anchor ∨ anchor = (persianMonthLen (p.y - 1) 12 : Int)) then .Start
  else if p.d = 1 ∧ ((2 ≤ p.m ∧ p.m ≤ 7 ∧ anchor = 31) ∨ (8 ≤ p.m ∧ p.m ≤ 12 ∧ 30 ≤ anchor)) then .Start
  else if 1 ≤ anchor ∧ anchor ≤ 31 then
    if (p.d : Int) = anchor then .End
    else if (p.d : Int) = anchor + 1 then .Start
    else .Middle
  else .Unknown

theorem pstep (y : Int) :
    ((25*y+11) % 33 < 8 ∧ (8*y+29) / 33 - (8*y+21) / 33 = 1) ∨
    (8 ≤ (25*y+11) % 33 ∧ (8*y+29) / 33 - (8*y+21) / 33 = 0) := by
  have hsum : (25*y+11) % 33 + (8*y+21) % 33 = 32 := by omega
  omega

theorem persianYearFromFixed_eq (y off : Int) (h0 : 0 ≤ off)
    (h1 : off < 365 + ((8*y+29) / 33 - (8*y+21) / 33)) :
    persianYearFromFixed (persianNewYearN y + off) = y := by
  unfold persianYearFromFixed persianNewYearN
  obtain ⟨k, j, hj0, hj32, rfl⟩ : ∃ k j, 0 ≤ j ∧ j < 33 ∧ y = 33*k + j :=
    ⟨y / 33, y % 33, by omega, by omega, by omega⟩
  interval_cases j <;> omega

theorem persianYear_bounds (n y : Int) (h : y = persianYearFromFixed n) :
    persianNewYearN y ≤ n ∧ n < persianNewYearN (y + 1) := by
  unfold persianYearFromFixed at h
  obtain ⟨k, j, hj0, hj32, rfl⟩ : ∃ k j, 0 ≤ j ∧ j < 33 ∧ y = 33*k + j :=
    ⟨y / 33, y % 33, by omega, by omega, by omega⟩
  unfold persianNewYearN
  constructor
  · omega
  · interval_cases j <;> omega

theorem persianFromFixed_rd (p : PDate) (hp : p.valid) : persianFromFixed (rdFromPersian p) = p := by
  obtain ⟨y, m, d⟩ := p
  simp only [PDate.valid, persianMonthLen, persianLeap, decide_eq_true_eq] at hp
  obtain ⟨h1, h2, h3, h4⟩ := hp
  have hstep := pstep y
  have hex : ∃ off, pMonthOff m + d - 1 = off := ⟨_, rfl⟩
  obtain ⟨off, hoff⟩ := hex
  simp only [pMonthOff] at hoff
  have hoffb : off ≤ 364 ∨ (off = 365 ∧ (25*y+11) % 33 < 8) := by
    split_ifs at * <;> omega
  have hyr : persianYearFromFixed (persianNewYearN y + off) = y := by
    apply persianYearFromFixed_eq <;> omega
  have hrd : rdFromPersian ⟨y, m, d⟩ = 226895 + persianNewYearN y + off := by
    simp only [rdFromPersian, persianNewYearN, pMonthOff]
    split_ifs at * <;> omega
  have harg : 226895 + persianNewYearN y + (off : Int) - 226895 = persianNewYearN y + off := by
    ring
  simp only [persianFromFixed, hrd, harg, hyr, add_sub_cancel_left, Int.toNat_natCast,
    PDate.mk.injEq]
  split_ifs at * <;> simp only [PDate.mk.injEq, true_and, and_true] <;> omega

theorem persianFromFixed_sound (rd : Int) :
    (persianFromFixed rd).valid ∧ rdFromPersian (persianFromFixed rd) = rd := by
  have hexy : ∃ yy, persianYearFromFixed (rd - 226895) = yy := ⟨_, rfl⟩
  obtain ⟨y, hy⟩ := hexy
  have hb := persianYear_bounds (rd - 226895) y hy.symm
  have hstep := pstep y
  unfold persianNewYearN at hb
  have hexo : ∃ o : Nat, (rd - 226895 - persianNewYearN y).toNat = o := ⟨_, rfl⟩
  obtain ⟨offn, hoffn⟩ := hexo
  simp only [persianNewYearN] at hoffn
  have hB : (offn : Int) = rd - 226895 - (365*(y-1) + (8*y+21) / 33) := by omega
  have hC : (offn : Int) ≤ 364 ∨ ((offn : Int) = 365 ∧ (25*y+11) % 33 < 8) := by omega
  simp only [persianFromFixed, persianNewYearN, hy, hoffn]
  clear hb hstep hoffn hy
  split_ifs with hsplit
  · refine ⟨?_, ?_⟩
    · simp only [PDate.valid, persianMonthLen, persianLeap, decide_eq_true_eq]
      split_ifs <;> omega
    · simp only [rdFromPersian, pMonthOff]
      split_ifs <;> omega
  · refine ⟨?_, ?_⟩
    · simp only [PDate.valid, persianMonthLen, persianLeap, decide_eq_true_eq]
      split_ifs <;> omega
    · simp only [rdFromPersian, pMonthOff]
      split_ifs <;> omega

theorem gregorianFromFixed_sound (rd : Int) :
    (gregorianFromFixed rd).valid ∧ rdFromGregorian (gregorianFromFixed rd) = rd := by
  have hexe : ∃ e, (rd + 305) / 146097 = e := ⟨_, rfl⟩
  obtain ⟨era, hera⟩ := hexe
  simp only [gregorianFromFixed]
  rw [hera]
  generalize hdoe : rd + 305 - era * 146097 = doe
  have hdoeB : 0 ≤ doe ∧ doe ≤ 146096 := by omega
  generalize hw : min 3 (doe / 36524) = w
  generalize hd1 : doe - 36524 * w = d1
  generalize hx : min 24 (d1 / 1461) = x
  generalize hd2 : d1 - 1461 * x = d2
  generalize hv : min 3 (d2 / 365) = v
  generalize hdoy : d2 - 365 * v = doy
  generalize hmp : (5 * doy + 2) / 153 = mp
  have hwB : 0 ≤ w ∧ w ≤ 3 ∧ 36524 * w ≤ doe ∧ (doe - 36524 * w ≤ 36523 ∨ w = 3) := by omega
  have hd1B : 0 ≤ d1 ∧ d1 ≤ 36524 := by omega
  have hxB : 0 ≤ x ∧ x ≤ 24 ∧ 1461 * x ≤ d1 ∧ d1 - 1461 * x ≤ 1460 := by omega
  have hd2B : 0 ≤ d2 ∧ d2 ≤ 1460 := by omega
  have hvB : 0 ≤ v ∧ v ≤ 3 ∧ 365 * v ≤ d2 ∧ (d2 - 365 * v ≤ 364 ∨ v = 3) := by omega
  have hdoyB : 0 ≤ doy ∧ doy ≤ 365 ∧ (doy = 365 → (v = 3 ∧ (x ≤ 23 ∨ w = 3))) := by omega
  have hmpB : 0 ≤ mp ∧ mp ≤ 11 := by omega
  have hyd400 : (era * 400 + (100 * w + 4 * x + v)) / 400 = era := by omega
  have hc1 : era * 400 + (100 * w + 4 * x + v) - era * 400 = 100 * w + 4 * x + v := by ring
  have hyd4 : (100 * w + 4 * x + v) / 4 = 25 * w + x := by omega
  have hyd100 : (100 * w + 4 * x + v) / 100 = w := by omega
  have hq : (153 * mp + 2) / 5 ≤ doy := by omega
  have hc3 : (↑(doy - (153 * mp + 2) / 5 + 1).toNat : Int) = doy - (153 * mp + 2) / 5 + 1 := by
    omega
  split_ifs with hlt hmm hmm
  · exfalso; omega
  · refine ⟨?_, ?_⟩
    · simp only [GDate.valid, gregMonthLen, gregLeap, Bool.or_eq_true, Bool.and_eq_true,
        Bool.not_eq_true', decide_eq_true_eq, decide_eq_false_iff_not]
      split_ifs <;> omega
    · simp only [rdFromGregorian]
      split_ifs <;> try omega
      all_goals (
        rw [hyd400, hc1, hyd4, hyd100]
        have hc2 : (↑(mp + 3).toNat : Int) - 3 = mp := by omega
        rw [hc2, hc3]
        omega)
  · refine ⟨?_, ?_⟩
    · simp only [GDate.valid, gregMonthLen, gregLeap, Bool.or_eq_true, Bool.and_eq_true,
        Bool.not_eq_true', decide_eq_true_eq, decide_eq_false_iff_not]
      split_ifs <;> omega
    · simp only [rdFromGregorian]
      split_ifs <;> try omega
      all_goals (
        simp only [add_sub_cancel_right]
        rw [hyd400, hc1, hyd4, hyd100]
        have hc2 : (↑(mp - 9).toNat : Int) + 9 = mp := by omega
        rw [hc2, hc3]
        omega)
  · exfalso; omega

theorem gregFromFixed_eval (era yoe doy : Int)
    (h1 : 0 ≤ yoe) (h2 : yoe ≤ 399) (h3 : 0 ≤ doy) (h4 : doy ≤ 365)
    (hsync : doy = 365 → ((yoe + 1) % 4 = 0 ∧ ((yoe + 1) % 100 ≠ 0 ∨ yoe = 399))) :
    gregorianFromFixed (era * 146097 + (yoe * 365 + yoe / 4 - yoe / 100 + doy) - 305) =
      (if ((if (5 * doy + 2) / 153 < 10 then (5 * doy + 2) / 153 + 3 else (5 * doy + 2) / 153 - 9) : Int) ≤ 2 then
        (⟨era * 400 + yoe + 1,
          ((if (5 * doy + 2) / 153 < 10 then (5 * doy + 2) / 153 + 3 else (5 * doy + 2) / 153 - 9) : Int).toNat,
          (doy - (153 * ((5 * doy + 2) / 153) + 2) / 5 + 1).toNat⟩ : GDate)
      else
        ⟨era * 400 + yoe,
          ((if (5 * doy + 2) / 153 < 10 then (5 * doy + 2) / 153 + 3 else (5 * doy + 2) / 153 - 9) : Int).toNat,
          (doy - (153 * ((5 * doy + 2) / 153) + 2) / 5 + 1).toNat⟩) := by
  obtain ⟨w0, x0, v0, hyoe, hv0a, hv0b, hx0a, hx0b, hw0a, hw0b, hxv⟩ :
      ∃ w0 x0 v0, yoe = 100 * w0 + 4 * x0 + v0 ∧ 0 ≤ v0 ∧ v0 ≤ 3 ∧ 0 ≤ x0 ∧ x0 ≤ 24 ∧
        0 ≤ w0 ∧ w0 ≤ 3 ∧ 4 * x0 + v0 ≤ 99 :=
    ⟨yoe / 100, yoe % 100 / 4, yoe % 100 % 4, by omega, by omega, by omega, by omega, by omega,
      by omega, by omega, by omega⟩
  have hsync2 : doy = 365 → (v0 = 3 ∧ (x0 ≤ 23 ∨ w0 = 3)) := by
    intro h
    obtain ⟨hs1, hs2⟩ := hsync h
    constructor
    · omega
    · rcases hs2 with hs2 | hs2
      · by_cases hx24 : x0 ≤ 23
        · exact Or.inl hx24
        · exfalso; omega
      · right; omega
  simp only [gregorianFromFixed]
  have hz : era * 146097 + (yoe * 365 + yoe / 4 - yoe / 100 + doy) - 305 + 305 =
      era * 146097 + (yoe * 365 + yoe / 4 - yoe / 100 + doy) := by ring
  rw [hz]
  have hyd4 : yoe / 4 = 25 * w0 + x0 := by omega
  have hyd100 : yoe / 100 = w0 := by omega
  rw [hyd4, hyd100]
  have hera : (era * 146097 + (yoe * 365 + (25 * w0 + x0) - w0 + doy)) / 146097 = era := by omega
  rw [hera]
  have harg : era * 146097 + (yoe * 365 + (25 * w0 + x0) - w0 + doy) - era * 146097 =
      yoe * 365 + (25 * w0 + x0) - w0 + doy := by ring
  rw [harg]
  have hw : min 3 ((yoe * 365 + (25 * w0 + x0) - w0 + doy) / 36524) = w0 := by omega
  rw [hw]
  have hd1 : yoe * 365 + (25 * w0 + x0) - w0 + doy - 36524 * w0 =
      1461 * x0 + (365 * v0 + doy) := by omega
  rw [hd1]
  have hx : min 24 ((1461 * x0 + (365 * v0 + doy)) / 1461) = x0 := by omega
  rw [hx]
  have hd2 : 1461 * x0 + (365 * v0 + doy) - 1461 * x0 = 365 * v0 + doy := by ring
  rw [hd2]
  have hv : min 3 ((365 * v0 + doy) / 365) = v0 := by omega
  rw [hv]
  have hdoyr : 365 * v0 + doy - 365 * v0 = doy := by ring
  rw [hdoyr]
  have hyoer : 100 * w0 + 4 * x0 + v0 = yoe := hyoe.symm
  rw [hyoer]

theorem gregorianFromFixed_rd (g : GDate) (hg : g.valid) :
    gregorianFromFixed (rdFromGregorian g) = g := by
  obtain ⟨y, m, d⟩ := g
  simp only [GDate.valid, gregMonthLen, gregLeap, Bool.or_eq_true, Bool.and_eq_true,
    Bool.not_eq_true', decide_eq_true_eq, decide_eq_false_iff_not] at hg
  obtain ⟨h1, h2, h3, h4⟩ := hg
  interval_cases m
  · have hexe : ∃ e, (y - 1) / 400 = e := ⟨_, rfl⟩
    obtain ⟨era0, hera0⟩ := hexe
    have hexy : ∃ q, y - 1 - era0 * 400 = q := ⟨_, rfl⟩
    obtain ⟨yoe0, hyoe0⟩ := hexy
    norm_num at h4
    have hrdg : rdFromGregorian ⟨y, 1, d⟩ =
        era0 * 146097 + (yoe0 * 365 + yoe0 / 4 - yoe0 / 100 + (306 + ↑d - 1)) - 305 := by
      simp only [rdFromGregorian]
      norm_num
      rw [hera0, hyoe0]
      try omega
    have ob1 : (0:Int) ≤ yoe0 := by omega
    have ob2 : yoe0 ≤ 399 := by omega
    have ob3 : (0:Int) ≤ 306 + ↑d - 1 := by omega
    have ob4 : (306 : Int) + ↑d - 1 ≤ 365 := by
      first
        | (split_ifs at h4 <;> omega)
        | omega
    have ob5 : (306 : Int) + ↑d - 1 = 365 →
        ((yoe0 + 1) % 4 = 0 ∧ ((yoe0 + 1) % 100 ≠ 0 ∨ yoe0 = 399)) := by
      intro hdoy
      first
        | (split_ifs at h4 <;> omega)
        | omega
    rw [hrdg, gregFromFixed_eval era0 yoe0 (306 + ↑d - 1) ob1 ob2 ob3 ob4 ob5]
    split_ifs <;> simp only [GDate.mk.injEq] <;> omega
  · have hexe : ∃ e, (y - 1) / 400 = e := ⟨_, rfl⟩
    obtain ⟨era0, hera0⟩ := hexe
    have hexy : ∃ q, y - 1 - era0 * 400 = q := ⟨_, rfl⟩
    obtain ⟨yoe0, hyoe0⟩ := hexy
    norm_num at h4
    have hrdg : rdFromGregorian ⟨y, 2, d⟩ =
        era0 * 146097 + (yoe0 * 365 + yoe0 / 4 - yoe0 / 100 + (337 + ↑d - 1)) - 305 := by
      simp only [rdFromGregorian]
      norm_num
      rw [hera0, hyoe0]
      try omega
    have ob1 : (0:Int) ≤ yoe0 := by omega
    have ob2 : yoe0 ≤ 399 := by omega
    have ob3 : (0:Int) ≤ 337 + ↑d - 1 := by omega
    have ob4 : (337 : Int) + ↑d - 1 ≤ 365 := by
      first
        | (split_ifs at h4 <;> omega)
        | omega
    have ob5 : (337 : Int) + ↑d - 1 = 365 →
        ((yoe0 + 1) % 4 = 0 ∧ ((yoe0 + 1) % 100 ≠ 0 ∨ yoe0 = 399)) := by
      intro hdoy
      first
        | (split_ifs at h4 <;> omega)
        | omega
    rw [hrdg, gregFromFixed_eval era0 yoe0 (337 + ↑d - 1) ob1 ob2 ob3 ob4 ob5]
    split_ifs <;> simp only [GDate.mk.injEq] <;> omega
  · have hexe : ∃ e, (y) / 400 = e := ⟨_, rfl⟩
    obtain ⟨era0, hera0⟩ := hexe
    have hexy : ∃ q, y - era0 * 400 = q := ⟨_, rfl⟩
    obtain ⟨yoe0, hyoe0⟩ := hexy
    norm_num at h4
    have hrdg : rdFromGregorian ⟨y, 3, d⟩ =
        era0 * 146097 + (yoe0 * 365 + yoe0 / 4 - yoe0 / 100 + (0 + ↑d - 1)) - 305 := by
      simp only [rdFromGregorian]
      norm_num
      rw [hera0, hyoe0]
      try omega
    have ob1 : (0:Int) ≤ yoe0 := by omega
    have ob2 : yoe0 ≤ 399 := by omega
    have ob3 : (0:Int) ≤ 0 + ↑d - 1 := by omega
    have ob4 : (0 : Int) + ↑d - 1 ≤ 365 := by
      first
        | (split_ifs at h4 <;> omega)
        | omega
    have ob5 : (0 : Int) + ↑d - 1 = 365 →
        ((yoe0 + 1) % 4 = 0 ∧ ((yoe0 + 1) % 100 ≠ 0 ∨ yoe0 = 399)) := by
      intro hdoy
      first
        | (split_ifs at h4 <;> omega)
        | omega
    rw [hrdg, gregFromFixed_eval era0 yoe0 (0 + ↑d - 1) ob1 ob2 ob3 ob4 ob5]
    split_ifs <;> simp only [GDate.mk.injEq] <;> omega
  · have hexe : ∃ e, (y) / 400 = e := ⟨_, rfl⟩
    obtain ⟨era0, hera0⟩ := hexe
    have hexy : ∃ q, y - era0 * 400 = q := ⟨_, rfl⟩
    obtain ⟨yoe0, hyoe0⟩ := hexy
    norm_num at h4
    have hrdg : rdFromGregorian ⟨y, 4, d⟩ =
        era0 * 146097 + (yoe0 * 365 + yoe0 / 4 - yoe0 / 100 + (31 + ↑d - 1)) - 305 := by
      simp only [rdFromGregorian]
      norm_num
      rw [hera0, hyoe0]
      try omega
    have ob1 : (0:Int) ≤ yoe0 := by omega
    have ob2 : yoe0 ≤ 399 := by omega
    have ob3 : (0:Int) ≤ 31 + ↑d - 1 := by omega
    have ob4 : (31 : Int) + ↑d - 1 ≤ 365 := by
      first
        | (split_ifs at h4 <;> omega)
        | omega
    have ob5 : (31 : Int) + ↑d - 1 = 365 →
        ((yoe0 + 1) % 4 = 0 ∧ ((yoe0 + 1) % 100 ≠ 0 ∨ yoe0 = 399)) := by
      intro hdoy
      first
        | (split_ifs at h4 <;> omega)
        | omega
    rw [hrdg, gregFromFixed_eval era0 yoe0 (31 + ↑d - 1) ob1 ob2 ob3 ob4 ob5]
    split_ifs <;> simp only [GDate.mk.injEq] <;> omega
  · have hexe : ∃ e, (y) / 400 = e := ⟨_, rfl⟩
    obtain ⟨era0, hera0⟩ := hexe
    have hexy : ∃ q, y - era0 * 400 = q := ⟨_, rfl⟩
    obtain ⟨yoe0, hyoe0⟩ := hexy
    norm_num at h4
    have hrdg : rdFromGregorian ⟨y, 5, d⟩ =
        era0 * 146097 + (yoe0 * 365 + yoe0 / 4 - yoe0 / 100 + (61 + ↑d - 1)) - 305 := by
      simp only [rdFromGregorian]
      norm_num
      rw [hera0, hyoe0]
      try omega
    have ob1 : (0:Int) ≤ yoe0 := by omega
    have ob2 : yoe0 ≤ 399 := by omega
    have ob3 : (0:Int) ≤ 61 + ↑d - 1 := by omega
    have ob4 : (61 : Int) + ↑d - 1 ≤ 365 := by
      first
        | (split_ifs at h4 <;> omega)
        | omega
    have ob5 : (61 : Int) + ↑d - 1 = 365 →
        ((yoe0 + 1) % 4 = 0 ∧ ((yoe0 + 1) % 100 ≠ 0 ∨ yoe0 = 399)) := by
      intro hdoy
      first
        | (split_ifs at h4 <;> omega)
        | omega
    rw [hrdg, gregFromFixed_eval era0 yoe0 (61 + ↑d - 1) ob1 ob2 ob3 ob4 ob5]
    split_ifs <;> simp only [GDate.mk.injEq] <;> omega
  · have hexe : ∃ e, (y) / 400 = e := ⟨_, rfl⟩
    obtain ⟨era0, hera0⟩ := hexe
    have hexy : ∃ q, y - era0 * 400 = q := ⟨_, rfl⟩
    obtain ⟨yoe0, hyoe0⟩ := hexy
    norm_num at h4
    have hrdg : rdFromGregorian ⟨y, 6, d⟩ =
        era0 * 146097 + (yoe0 * 365 + yoe0 / 4 - yoe0 / 100 + (92 + ↑d - 1)) - 305 := by
      simp only [rdFromGregorian]
      norm_num
      rw [hera0, hyoe0]
      try omega
    have ob1 : (0:Int) ≤ yoe0 := by omega
    have ob2 : yoe0 ≤ 399 := by omega
    have ob3 : (0:Int) ≤ 92 + ↑d - 1 := by omega
    have ob4 : (92 : Int) + ↑d - 1 ≤ 365 := by
      first
        | (split_ifs at h4 <;> omega)
        | omega
    have ob5 : (92 : Int) + ↑d - 1 = 365 →
        ((yoe0 + 1) % 4 = 0 ∧ ((yoe0 + 1) % 100 ≠ 0 ∨ yoe0 = 399)) := by
      intro hdoy
      first
        | (split_ifs at h4 <;> omega)
        | omega
    rw [hrdg, gregFromFixed_eval era0 yoe0 (92 + ↑d - 1) ob1 ob2 ob3 ob4 ob5]
    split_ifs <;> simp only [GDate.mk.injEq] <;> omega
  · have hexe : ∃ e, (y) / 400 = e := ⟨_, rfl⟩
    obtain ⟨era0, hera0⟩ := hexe
    have hexy : ∃ q, y - era0 * 400 = q := ⟨_, rfl⟩
    obtain ⟨yoe0, hyoe0⟩ := hexy
    norm_num at h4
    have hrdg : rdFromGregorian ⟨y, 7, d⟩ =
        era0 * 146097 + (yoe0 * 365 + yoe0 / 4 - yoe0 / 100 + (122 + ↑d - 1)) - 305 := by
      simp only [rdFromGregorian]
      norm_num
      rw [hera0, hyoe0]
      try omega
    have ob1 : (0:Int) ≤ yoe0 := by omega
    have ob2 : yoe0 ≤ 399 := by omega
    have ob3 : (0:Int) ≤ 122 + ↑d - 1 := by omega
    have ob4 : (122 : Int) + ↑d - 1 ≤ 365 := by
      first
        | (split_ifs at h4 <;> omega)
        | omega
    have ob5 : (122 : Int) + ↑d - 1 = 365 →
        ((yoe0 + 1) % 4 = 0 ∧ ((yoe0 + 1) % 100 ≠ 0 ∨ yoe0 = 399)) := by
      intro hdoy
      first
        | (split_ifs at h4 <;> omega)
        | omega
    rw [hrdg, gregFromFixed_eval era0 yoe0 (122 + ↑d - 1) ob1 ob2 ob3 ob4 ob5]
    split_ifs <;> simp only [GDate.mk.injEq] <;> omega
  · have hexe : ∃ e, (y) / 400 = e := ⟨_, rfl⟩
    obtain ⟨era0, hera0⟩ := hexe
    have hexy : ∃ q, y - era0 * 400 = q := ⟨_, rfl⟩
    obtain ⟨yoe0, hyoe0⟩ := hexy
    norm_num at h4
    have hrdg : rdFromGregorian ⟨y, 8, d⟩ =
        era0 * 146097 + (yoe0 * 365 + yoe0 / 4 - yoe0 / 100 + (153 + ↑d - 1)) - 305 := by
      simp only [rdFromGregorian]
      norm_num
      rw [hera0, hyoe0]
      try omega
    have ob1 : (0:Int) ≤ yoe0 := by omega
    have ob2 : yoe0 ≤ 399 := by omega
    have ob3 : (0:Int) ≤ 153 + ↑d - 1 := by omega
    have ob4 : (153 : Int) + ↑d - 1 ≤ 365 := by
      first
        | (split_ifs at h4 <;> omega)
        | omega
    have ob5 : (153 : Int) + ↑d - 1 = 365 →
        ((yoe0 + 1) % 4 = 0 ∧ ((yoe0 + 1) % 100 ≠ 0 ∨ yoe0 = 399)) := by
      intro hdoy
      first
        | (split_ifs at h4 <;> omega)
        | omega
    rw [hrdg, gregFromFixed_eval era0 yoe0 (153 + ↑d - 1) ob1 ob2 ob3 ob4 ob5]
    split_ifs <;> simp only [GDate.mk.injEq] <;> omega
  · have hexe : ∃ e, (y) / 400 = e := ⟨_, rfl⟩
    obtain ⟨era0, hera0⟩ := hexe
    have hexy : ∃ q, y - era0 * 400 = q := ⟨_, rfl⟩
    obtain ⟨yoe0, hyoe0⟩ := hexy
    norm_num at h4
    have hrdg : rdFromGregorian ⟨y, 9, d⟩ =
        era0 * 146097 + (yoe0 * 365 + yoe0 / 4 - yoe0 / 100 + (184 + ↑d - 1)) - 305 := by
      simp only [rdFromGregorian]
      norm_num
      rw [hera0, hyoe0]
      try omega
    have ob1 : (0:Int) ≤ yoe0 := by omega
    have ob2 : yoe0 ≤ 399 := by omega
    have ob3 : (0:Int) ≤ 184 + ↑d - 1 := by omega
    have ob4 : (184 : Int) + ↑d - 1 ≤ 365 := by
      first
        | (split_ifs at h4 <;> omega)
        | omega
    have ob5 : (184 : Int) + ↑d - 1 = 365 →
        ((yoe0 + 1) % 4 = 0 ∧ ((yoe0 + 1) % 100 ≠ 0 ∨ yoe0 = 399)) := by
      intro hdoy
      first
        | (split_ifs at h4 <;> omega)
        | omega
    rw [hrdg, gregFromFixed_eval era0 yoe0 (184 + ↑d - 1) ob1 ob2 ob3 ob4 ob5]
    split_ifs <;> simp only [GDate.mk.injEq] <;> omega
  · have hexe : ∃ e, (y) / 400 = e := ⟨_, rfl⟩
    obtain ⟨era0, hera0⟩ := hexe
    have hexy : ∃ q, y - era0 * 400 = q := ⟨_, rfl⟩
    obtain ⟨yoe0, hyoe0⟩ := hexy
    norm_num at h4
    have hrdg : rdFromGregorian ⟨y, 10, d⟩ =
        era0 * 146097 + (yoe0 * 365 + yoe0 / 4 - yoe0 / 100 + (214 + ↑d - 1)) - 305 := by
      simp only [rdFromGregorian]
      norm_num
      rw [hera0, hyoe0]
      try omega
    have ob1 : (0:Int) ≤ yoe0 := by omega
    have ob2 : yoe0 ≤ 399 := by omega
    have ob3 : (0:Int) ≤ 214 + ↑d - 1 := by omega
    have ob4 : (214 : Int) + ↑d - 1 ≤ 365 := by
      first
        | (split_ifs at h4 <;> omega)
        | omega
    have ob5 : (214 : Int) + ↑d - 1 = 365 →
        ((yoe0 + 1) % 4 = 0 ∧ ((yoe0 + 1) % 100 ≠ 0 ∨ yoe0 = 399)) := by
      intro hdoy
      first
        | (split_ifs at h4 <;> omega)
        | omega
    rw [hrdg, gregFromFixed_eval era0 yoe0 (214 + ↑d - 1) ob1 ob2 ob3 ob4 ob5]
    split_ifs <;> simp only [GDate.mk.injEq] <;> omega
  · have hexe : ∃ e, (y) / 400 = e := ⟨_, rfl⟩
    obtain ⟨era0, hera0⟩ := hexe
    have hexy : ∃ q, y - era0 * 400 = q := ⟨_, rfl⟩
    obtain ⟨yoe0, hyoe0⟩ := hexy
    norm_num at h4
    have hrdg : rdFromGregorian ⟨y, 11, d⟩ =
        era0 * 146097 + (yoe0 * 365 + yoe0 / 4 - yoe0 / 100 + (245 + ↑d - 1)) - 305 := by
      simp only [rdFromGregorian]
      norm_num
      rw [hera0, hyoe0]
      try omega
    have ob1 : (0:Int) ≤ yoe0 := by omega
    have ob2 : yoe0 ≤ 399 := by omega
    have ob3 : (0:Int) ≤ 245 + ↑d - 1 := by omega
    have ob4 : (245 : Int) + ↑d - 1 ≤ 365 := by
      first
        | (split_ifs at h4 <;> omega)
        | omega
    have ob5 : (245 : Int) + ↑d - 1 = 365 →
        ((yoe0 + 1) % 4 = 0 ∧ ((yoe0 + 1) % 100 ≠ 0 ∨ yoe0 = 399)) := by
      intro hdoy
      first
        | (split_ifs at h4 <;> omega)
        | omega
    rw [hrdg, gregFromFixed_eval era0 yoe0 (245 + ↑d - 1) ob1 ob2 ob3 ob4 ob5]
    split_ifs <;> simp only [GDate.mk.injEq] <;> omega
  · have hexe : ∃ e, (y) / 400 = e := ⟨_, rfl⟩
    obtain ⟨era0, hera0⟩ := hexe
    have hexy : ∃ q, y - era0 * 400 = q := ⟨_, rfl⟩
    obtain ⟨yoe0, hyoe0⟩ := hexy
    norm_num at h4
    have hrdg : rdFromGregorian ⟨y, 12, d⟩ =
        era0 * 146097 + (yoe0 * 365 + yoe0 / 4 - yoe0 / 100 + (275 + ↑d - 1)) - 305 := by
      simp only [rdFromGregorian]
      norm_num
      rw [hera0, hyoe0]
      try omega
    have ob1 : (0:Int) ≤ yoe0 := by omega
    have ob2 : yoe0 ≤ 399 := by omega
    have ob3 : (0:Int) ≤ 275 + ↑d - 1 := by omega
    have ob4 : (275 : Int) + ↑d - 1 ≤ 365 := by
      first
        | (split_ifs at h4 <;> omega)
        | omega
    have ob5 : (275 : Int) + ↑d - 1 = 365 →
        ((yoe0 + 1) % 4 = 0 ∧ ((yoe0 + 1) % 100 ≠ 0 ∨ yoe0 = 399)) := by
      intro hdoy
      first
        | (split_ifs at h4 <;> omega)
        | omega
    rw [hrdg, gregFromFixed_eval era0 yoe0 (275 + ↑d - 1) ob1 ob2 ob3 ob4 ob5]
    split_ifs <;> simp only [GDate.mk.injEq] <;> omega

theorem splitOnChar_noSep (sep : Char) (l : List Char) (h : sep ∉ l) :
    splitOnChar sep l = [l] := by
  induction l with
  | nil => rfl
  | cons c cs ih =>
    simp only [List.mem_cons, not_or] at h
    have hcs : ¬ c = sep := fun hc => h.1 hc.symm
    simp only [splitOnChar, if_neg hcs, ih h.2]

theorem splitOnChar_append (sep : Char) (a t : List Char) (h : sep ∉ a) :
    splitOnChar sep (a ++ sep :: t) = a :: splitOnChar sep t := by
  induction a with
  | nil =>
    simp [splitOnChar]
  | cons c cs ih =>
    simp only [List.mem_cons, not_or] at h
    have hcs : ¬ c = sep := fun hc => h.1 hc.symm
    simp [splitOnChar, if_neg hcs, ih h.2]

theorem digitChar_toNat (r : Nat) (h : r < 10) : (Nat.digitChar r).toNat = 48 + r := by
  interval_cases r <;> decide

theorem natToCharsGo_digits (fuel : Nat) :
    ∀ n, n ≤ fuel → ∀ c ∈ natToCharsGo fuel n, 48 ≤ c.toNat ∧ c.toNat ≤ 57 := by
  induction fuel with
  | zero =>
    intro n hn c hc
    interval_cases n
    simp only [natToCharsGo, List.mem_singleton] at hc
    subst hc
    decide
  | succ fuel ih =>
    intro n hn c hc
    rw [natToCharsGo] at hc
    split at hc
    · simp only [List.mem_singleton] at hc
      subst hc
      rename_i h
      have hd := digitChar_toNat n h
      omega
    · rename_i h
      rw [List.mem_append] at hc
      rcases hc with hc | hc
      · exact ih (n / 10) (by omega) c hc
      · simp only [List.mem_singleton] at hc
        subst hc
        have hd := digitChar_toNat (n % 10) (by omega)
        omega

theorem natToChars_digits (n : Nat) :
    ∀ c ∈ natToChars n, 48 ≤ c.toNat ∧ c.toNat ≤ 57 :=
  natToCharsGo_digits n n (le_refl n)

theorem natToChars_ne_nil (n : Nat) : natToChars n ≠ [] := by
  unfold natToChars
  cases n with
  | zero => decide
  | succ k =>
    rw [natToCharsGo]
    split
    · simp
    · simp

theorem parseDigitsGo_append (xs ys : List Char) (acc : Nat) :
    parseDigitsGo (xs ++ ys) acc =
      match parseDigitsGo xs acc with
      | some a => parseDigitsGo ys a
      | none => none := by
  induction xs generalizing acc with
  | nil => rfl
  | cons c cs ih =>
    simp only [List.cons_append, parseDigitsGo]
    split_ifs
    · exact ih _
    · rfl

theorem parseDigitsGo_natToCharsGo (fuel : Nat) :
    ∀ n, n ≤ fuel → parseDigitsGo (natToCharsGo fuel n) 0 = some n := by
  induction fuel with
  | zero =>
    intro n hn
    interval_cases n
    decide
  | succ fuel ih =>
    intro n hn
    rw [natToCharsGo]
    split
    · rename_i h
      have hd := digitChar_toNat n h
      simp only [parseDigitsGo]
      rw [if_pos (by omega)]
      simp only [parseDigitsGo, Option.some.injEq]
      omega
    · rename_i h
      rw [parseDigitsGo_append, ih (n / 10) (by omega)]
      have hd := digitChar_toNat (n % 10) (by omega)
      simp only [parseDigitsGo]
      rw [if_pos (by omega)]
      simp only [parseDigitsGo, Option.some.injEq]
      omega

theorem parseDigitsGo_natToChars (n : Nat) :
    parseDigitsGo (natToChars n) 0 = some n :=
  parseDigitsGo_natToCharsGo n n (le_refl n)

theorem parseDigitsGo_zeros (k : Nat) (l : List Char) :
    parseDigitsGo (List.replicate k '0' ++ l) 0 = parseDigitsGo l 0 := by
  induction k with
  | zero => rfl
  | succ k ih =>
    simp only [List.replicate_succ, List.cons_append, parseDigitsGo]
    rw [if_pos (by decide)]
    simpa using ih

theorem parseDigits_padded (w : Nat) (n : Nat) :
    parseDigits (padZeros w (natToChars n)) = some n := by
  unfold parseDigits padZeros
  rw [if_neg (by simp [natToChars_ne_nil])]
  rw [parseDigitsGo_zeros, parseDigitsGo_natToChars]

theorem mem_padZeros_digits (w n : Nat) :
    ∀ c ∈ padZeros w (natToChars n), 48 ≤ c.toNat ∧ c.toNat ≤ 57 := by
  intro c hc
  unfold padZeros at hc
  rw [List.mem_append] at hc
  rcases hc with hc | hc
  · rw [List.eq_of_mem_replicate hc]; decide
  · exact natToChars_digits n c hc

theorem sep_not_mem_digits (ch : Char) (l : List Char) (hch : ch.toNat < 48)
    (hl : ∀ c ∈ l, 48 ≤ c.toNat ∧ c.toNat ≤ 57) : ch ∉ l := by
  intro hm
  have := hl ch hm
  omega

theorem parseU8_of_digits (l : List Char) (n : Nat)
    (hd : parseDigits l = some n) (hn : n ≤ 255)
    (hl : ∀ c ∈ l, 48 ≤ c.toNat ∧ c.toNat ≤ 57) : parseU8 l = some n := by
  cases l with
  | nil => simp [parseDigits] at hd
  | cons c cs =>
    have hc := hl c (List.mem_cons_self _ _)
    have hplus : ¬ c = '+' := by
      intro h
      subst h
      revert hc
      decide
    simp only [parseU8, if_neg hplus, hd, Option.some_bind, if_pos hn]

theorem parseI32_of_digits (l : List Char) (n : Nat)
    (hd : parseDigits l = some n) (hn : (n : Int) ≤ 2147483647)
    (hl : ∀ c ∈ l, 48 ≤ c.toNat ∧ c.toNat ≤ 57) : parseI32 l = some (n : Int) := by
  cases l with
  | nil => simp [parseDigits] at hd
  | cons c cs =>
    have hc := hl c (List.mem_cons_self _ _)
    have hplus : ¬ c = '+' := by
      intro h
      subst h
      revert hc
      decide
    have hminus : ¬ c = '-' := by
      intro h
      subst h
      revert hc
      decide
    simp only [parseI32, if_neg hplus, if_neg hminus, hd, Option.some_bind, if_pos hn]

theorem i32Render_nonneg (y : Int) (h : 0 ≤ y) : i32Render y = natToChars y.toNat := by
  unfold i32Render
  rw [if_neg (by omega)]

theorem parseI32_padded (y : Int) (h0 : 0 ≤ y) (h1 : y ≤ 2147483647) :
    parseI32 (padZeros 4 (i32Render y)) = some y := by
  rw [i32Render_nonneg y h0]
  have hr := parseI32_of_digits _ y.toNat (parseDigits_padded 4 y.toNat) (by omega)
    (mem_padZeros_digits 4 y.toNat)
  rw [hr]
  congr 1
  omega

theorem parseU8_padded (m : Nat) (hm : m ≤ 255) :
    parseU8 (padZeros 2 (natToChars m)) = some m :=
  parseU8_of_digits _ m (parseDigits_padded 2 m) hm (mem_padZeros_digits 2 m)

theorem jalali_reparse (p : PDate) (hv : p.valid) (h0 : 0 ≤ p.y) (h1 : p.y ≤ 2147483647) :
    jalali_date_parse (formatJalali p) = some p := by
  obtain ⟨y, m, d⟩ := p
  have hv' : 1 ≤ m ∧ m ≤ 12 ∧ 1 ≤ d ∧ d ≤ persianMonthLen y m := by
    simpa [PDate.valid] using hv
  have hm255 : m ≤ 255 := by
    have h4 := hv'.2.2.2
    unfold persianMonthLen at h4
    split_ifs at h4 <;> omega
  have hd255 : d ≤ 255 := by
    have h4 := hv'.2.2.2
    unfold persianMonthLen at h4
    split_ifs at h4 <;> omega
  have hns1 : '/' ∉ padZeros 4 (i32Render y) := by
    rw [i32Render_nonneg y h0]
    exact sep_not_mem_digits _ _ (by decide) (mem_padZeros_digits _ _)
  have hns2 : '/' ∉ padZeros 2 (natToChars m) :=
    sep_not_mem_digits _ _ (by decide) (mem_padZeros_digits _ _)
  have hns3 : '/' ∉ padZeros 2 (natToChars d) :=
    sep_not_mem_digits _ _ (by decide) (mem_padZeros_digits _ _)
  unfold jalali_date_parse jalali_date_parse_raw formatJalali sep3
  rw [splitOnChar_append _ _ _ hns1, splitOnChar_append _ _ _ hns2, splitOnChar_noSep _ _ hns3]
  simp only [parseI32_padded y h0 h1, parseU8_padded m hm255, parseU8_padded d hd255,
    Option.some_bind, Option.bind_eq_bind]
  unfold tryNewPersianDate
  simp only [Option.pure_def, Option.some_bind]
  rw [if_pos hv']

theorem greg_reparse (g : GDate) (hv : g.valid) (h0 : 0 ≤ g.y) (h1 : g.y ≤ 2147483647) :
    gregorian_date_parse (formatGregorian g) = some g := by
  obtain ⟨y, m, d⟩ := g
  have hv' : 1 ≤ m ∧ m ≤ 12 ∧ 1 ≤ d ∧ d ≤ gregMonthLen y m := by
    simpa [GDate.valid] using hv
  have hm255 : m ≤ 255 := by
    have h4 := hv'.2.2.2
    unfold gregMonthLen at h4
    split_ifs at h4 <;> omega
  have hd255 : d ≤ 255 := by
    have h4 := hv'.2.2.2
    unfold gregMonthLen at h4
    split_ifs at h4 <;> omega
  have hns1 : '-' ∉ padZeros 4 (i32Render y) := by
    rw [i32Render_nonneg y h0]
    exact sep_not_mem_digits _ _ (by decide) (mem_padZeros_digits _ _)
  have hns2 : '-' ∉ padZeros 2 (natToChars m) :=
    sep_not_mem_digits _ _ (by decide) (mem_padZeros_digits _ _)
  have hns3 : '-' ∉ padZeros 2 (natToChars d) :=
    sep_not_mem_digits _ _ (by decide) (mem_padZeros_digits _ _)
  unfold gregorian_date_parse formatGregorian sep3
  rw [splitOnChar_append _ _ _ hns1, splitOnChar_append _ _ _ hns2, splitOnChar_noSep _ _ hns3]
  simp only [parseI32_padded y h0 h1, parseU8_padded m hm255, parseU8_padded d hd255,
    Option.some_bind, Option.bind_eq_bind]
  unfold tryNewGregorianDate
  rw [if_pos hv']

theorem gregorianFromFixed_y_bounds (rd : Int) (h : 0 ≤ rd) (hub : rd ≤ 400000000000) :
    0 ≤ (gregorianFromFixed rd).y ∧ (gregorianFromFixed rd).y ≤ 2000000000 := by
  obtain ⟨hval, hrec⟩ := gregorianFromFixed_sound rd
  have hex : ∃ g, gregorianFromFixed rd = g := ⟨_, rfl⟩
  obtain ⟨g, hgeq⟩ := hex
  rw [hgeq] at hval hrec ⊢
  obtain ⟨gy, gm, gd⟩ := g
  dsimp only
  simp only [GDate.valid, gregMonthLen] at hval
  simp only [rdFromGregorian] at hrec
  split_ifs at hval hrec <;> omega

theorem persianFromFixed_y_bounds (rd : Int) (h : 0 ≤ rd) (hub : rd ≤ 400000000000) :
    (persianFromFixed rd).y ≤ 2000000000 := by
  obtain ⟨hval, hrec⟩ := persianFromFixed_sound rd
  have hex : ∃ p, persianFromFixed rd = p := ⟨_, rfl⟩
  obtain ⟨p, hpeq⟩ := hex
  rw [hpeq] at hval hrec ⊢
  obtain ⟨py, pm, pd⟩ := p
  dsimp only
  simp only [PDate.valid, persianMonthLen] at hval
  simp only [rdFromPersian, pMonthOff] at hrec
  split_ifs at hval hrec <;> omega

theorem jalali_date_parse_elim (s : List Char) (p : PDate)
    (h : jalali_date_parse s = some p) :
    p.valid ∧ jalali_date_parse_raw s = some (p.y, p.m, p.d) := by
  unfold jalali_date_parse at h
  cases hraw : jalali_date_parse_raw s with
  | none => rw [hraw] at h; simp at h
  | some t =>
    obtain ⟨y, m, d⟩ := t
    rw [hraw] at h
    simp only [Option.some_bind] at h
    unfold tryNewPersianDate at h
    by_cases hc : 1 ≤ m ∧ m ≤ 12 ∧ 1 ≤ d ∧ d ≤ persianMonthLen y m
    · rw [if_pos hc] at h
      simp only [Option.some.injEq] at h
      subst h
      exact ⟨hc, rfl⟩
    · rw [if_neg hc] at h
      simp at h

/-- Claim C10: the Jalali date parser accepts non-zero-padded and plus-signed
segments and yields the same triple as the canonical padded text, which it also
accepts; the lenient texts are distinct from the canonical one. -/
theorem claim_C10_lenient_parse :
    jalali_date_parse_raw ("1403/5/8".toList) = some (1403, 5, 8) ∧
    jalali_date_parse_raw ("+1403/05/08".toList) = some (1403, 5, 8) ∧
    jalali_date_parse_raw (formatJalali ⟨1403, 5, 8⟩) = some (1403, 5, 8) ∧
    "1403/5/8".toList ≠ formatJalali ⟨1403, 5, 8⟩ ∧
    "+1403/05/08".toList ≠ formatJalali ⟨1403, 5, 8⟩ := by
  refine ⟨?_, ?_, ?_, ?_, ?_⟩ <;> decide

/-- Claim C6: `jalali_date_is_leap_year` answers true exactly when the date
`(year, 12, 30)` is constructible. -/
theorem claim_C6_leap_consistency (s : List Char) (p : PDate)
    (h : jalali_date_parse s = some p) :
    (jalali_date_is_leap_year s = some true ↔ (tryNewPersianDate p.y 12 30).isSome) := by
  unfold jalali_date_is_leap_year
  rw [h]
  cases hL : persianLeap p.y <;>
    simp [hL, tryNewPersianDate, persianMonthLen]

theorem claim_C6_witness :
    jalali_date_is_leap_year ("1403/01/01".toList) = some true ↔
      (tryNewPersianDate 1403 12 30).isSome :=
  claim_C6_leap_consistency ("1403/01/01".toList) ⟨1403, 1, 1⟩ (by decide)

theorem diffWA_eval (t1 t2 : List Char) (g1 g2 : GDate) (a : Int)
    (h1 : jalali_date_to_gregorian_internal t1 = some g1)
    (h2 : jalali_date_to_gregorian_internal t2 = some g2) :
    jalali_date_diff_with_addition t1 t2 a =
      if chronoYearOK g1.y ∧ chronoYearOK g2.y then
        some (i32Wrap (i32Wrap
          (i32Wrap (dateComponentIntervalDays (rdFromGregorian g1) (rdFromGregorian g2) : Int)
            + a) *
          (if dateComponentInvert (rdFromGregorian g1) (rdFromGregorian g2) then -1 else 1)))
      else none := by
  unfold jalali_date_diff_with_addition
  rw [h1]
  simp only [Option.bind_eq_bind, Option.some_bind]
  rw [h2]
  simp only [Option.bind_eq_bind, Option.some_bind]

theorem diffWA_none_left (t1 t2 : List Char) (a : Int)
    (h1 : jalali_date_to_gregorian_internal t1 = none) :
    jalali_date_diff_with_addition t1 t2 a = none := by
  unfold jalali_date_diff_with_addition
  rw [h1]
  rfl

theorem diffWA_none_right (t1 t2 : List Char) (g1 : GDate) (a : Int)
    (h1 : jalali_date_to_gregorian_internal t1 = some g1)
    (h2 : jalali_date_to_gregorian_internal t2 = none) :
    jalali_date_diff_with_addition t1 t2 a = none := by
  unfold jalali_date_diff_with_addition
  rw [h1]
  simp only [Option.bind_eq_bind, Option.some_bind]
  rw [h2]
  rfl

theorem internal_elim (s : List Char) (g : GDate)
    (h : jalali_date_to_gregorian_internal s = some g) :
    ∃ p, jalali_date_parse s = some p ∧ g = gregorianFromFixed (rdFromPersian p) := by
  unfold jalali_date_to_gregorian_internal at h
  cases hp : jalali_date_parse s with
  | none => rw [hp] at h; simp at h
  | some p =>
    rw [hp] at h
    simp only [Option.map_some', Option.some.injEq] at h
    exact ⟨p, rfl, h.symm⟩

theorem rdMinChrono_eq : rdMinChrono = -95746495 := by decide

theorem rdMaxChrono_eq : rdMaxChrono = 95745764 := by decide

theorem rdFromGregorian_bounds (g : GDate) (hv : g.valid) (hy : chronoYearOK g.y) :
    -200000000 ≤ rdFromGregorian g ∧ rdFromGregorian g ≤ 200000000 := by
  obtain ⟨y, m, d⟩ := g
  simp only [GDate.valid, gregMonthLen] at hv
  unfold chronoYearOK at hy
  dsimp only at hy
  simp only [rdFromGregorian]
  split_ifs at hv ⊢ <;> omega

theorem wrapVal_eq (I a : Int) (c : Prop) [Decidable c] (hI0 : 0 ≤ I) (hI1 : I ≤ 400000000)
    (ha0 : -2147483647 ≤ I + a) (ha1 : I + a ≤ 2147483647) :
    i32Wrap (i32Wrap (i32Wrap I + a) * (if c then -1 else 1)) =
      (I + a) * (if c then -1 else 1) := by
  have h1 : i32Wrap I = I := by unfold i32Wrap; omega
  have h2 : i32Wrap (I + a) = I + a := by unfold i32Wrap; omega
  rw [h1, h2]
  split_ifs
  · have h3 : i32Wrap ((I + a) * -1) = (I + a) * -1 := by unfold i32Wrap; omega
    rw [h3]
  · have h3 : i32Wrap ((I + a) * 1) = (I + a) * 1 := by unfold i32Wrap; omega
    rw [h3]

/-- Claim C5: `jalali_date_diff` is antisymmetric: whenever it returns a value
on a pair of texts, swapping the texts returns its negation. -/
theorem claim_C5_diff_antisymmetry (s1 s2 : List Char) (v : Int)
    (h : jalali_date_diff s1 s2 = some v) :
    jalali_date_diff s2 s1 = some (-v) := by
  unfold jalali_date_diff at h ⊢
  cases hg1 : jalali_date_to_gregorian_internal s1 with
  | none => rw [diffWA_none_left s1 s2 0 hg1] at h; simp at h
  | some g1 =>
    cases hg2 : jalali_date_to_gregorian_internal s2 with
    | none => rw [diffWA_none_right s1 s2 g1 0 hg1 hg2] at h; simp at h
    | some g2 =>
      obtain ⟨p1, hp1, hge1⟩ := internal_elim s1 g1 hg1
      obtain ⟨p2, hp2, hge2⟩ := internal_elim s2 g2 hg2
      have hv1 : g1.valid := by rw [hge1]; exact (gregorianFromFixed_sound _).1
      have hv2 : g2.valid := by rw [hge2]; exact (gregorianFromFixed_sound _).1
      rw [diffWA_eval s1 s2 g1 g2 0 hg1 hg2] at h
      rw [diffWA_eval s2 s1 g2 g1 0 hg2 hg1]
      by_cases hok : chronoYearOK g1.y ∧ chronoYearOK g2.y
      · rw [if_pos hok] at h
        rw [if_pos (show chronoYearOK g2.y ∧ chronoYearOK g1.y from ⟨hok.2, hok.1⟩)]
        have hb1 := rdFromGregorian_bounds g1 hv1 hok.1
        have hb2 := rdFromGregorian_bounds g2 hv2 hok.2
        have hI12 : (0:Int) ≤
            (dateComponentIntervalDays (rdFromGregorian g1) (rdFromGregorian g2) : Int) ∧
            (dateComponentIntervalDays (rdFromGregorian g1) (rdFromGregorian g2) : Int) ≤
              400000000 := by
          unfold dateComponentIntervalDays
          constructor <;> omega
        have hI21 : (0:Int) ≤
            (dateComponentIntervalDays (rdFromGregorian g2) (rdFromGregorian g1) : Int) ∧
            (dateComponentIntervalDays (rdFromGregorian g2) (rdFromGregorian g1) : Int) ≤
              400000000 := by
          unfold dateComponentIntervalDays
          constructor <;> omega
        rw [wrapVal_eq _ 0 _ hI12.1 hI12.2 (by omega) (by omega)] at h
        rw [wrapVal_eq _ 0 _ hI21.1 hI21.2 (by omega) (by omega)]
        unfold dateComponentIntervalDays dateComponentInvert at h ⊢
        simp only [decide_eq_true_eq] at h ⊢
        split_ifs at h ⊢ <;>
          simp only [Option.some.injEq] at h ⊢ <;>
          omega
      · rw [if_neg hok] at h
        simp at h

theorem claim_C5_witness :
    jalali_date_diff ("1403/02/05".toList) ("1403/01/01".toList) = some (-35) :=
  claim_C5_diff_antisymmetry ("1403/01/01".toList) ("1403/02/05".toList) 35 (by decide)

/-- Claim C7, counterexample to the original statement: with interval 1 and
addition `2147483647` the `i32` addition wraps, so the program answers
`-2147483648`, not the mathematical `(interval + addition) * 1`. -/
theorem claim_C7_cex :
    jalali_date_diff_with_addition ("1403/01/01".toList) ("1403/01/02".toList) 2147483647 =
      some (-2147483648) ∧
    ((1 : Int) + 2147483647) * 1 ≠ -2147483648 := by decide

/-- Claim C7 (amended): `jalali_date_diff_with_addition` applies the adjustment
to the unsigned interval before the sign inversion: whenever the sum
`interval + addition` lies in `[-2147483647, 2147483647]` (so neither it nor
its negation overflows `i32`), the result is `-(interval + addition)` when the
end date precedes the start and `interval + addition` otherwise; outside that
range the `i32` arithmetic wraps. -/
theorem claim_C7_adjustment_before_inversion (s1 s2 : List Char) (a v : Int) (g1 g2 : GDate)
    (h1 : jalali_date_to_gregorian_internal s1 = some g1)
    (h2 : jalali_date_to_gregorian_internal s2 = some g2)
    (h : jalali_date_diff_with_addition s1 s2 a = some v)
    (hlo : -2147483647 ≤
      (dateComponentIntervalDays (rdFromGregorian g1) (rdFromGregorian g2) : Int) + a)
    (hhi : (dateComponentIntervalDays (rdFromGregorian g1) (rdFromGregorian g2) : Int) + a ≤
      2147483647) :
    (dateComponentInvert (rdFromGregorian g1) (rdFromGregorian g2) = true →
      v = -((dateComponentIntervalDays (rdFromGregorian g1) (rdFromGregorian g2) : Int) + a)) ∧
    (dateComponentInvert (rdFromGregorian g1) (rdFromGregorian g2) = false →
      v = (dateComponentIntervalDays (rdFromGregorian g1) (rdFromGregorian g2) : Int) + a) := by
  obtain ⟨p1, hp1, hge1⟩ := internal_elim s1 g1 h1
  obtain ⟨p2, hp2, hge2⟩ := internal_elim s2 g2 h2
  have hv1 : g1.valid := by rw [hge1]; exact (gregorianFromFixed_sound _).1
  have hv2 : g2.valid := by rw [hge2]; exact (gregorianFromFixed_sound _).1
  rw [diffWA_eval s1 s2 g1 g2 a h1 h2] at h
  by_cases hok : chronoYearOK g1.y ∧ chronoYearOK g2.y
  · rw [if_pos hok] at h
    simp only [Option.some.injEq] at h
    have hb1 := rdFromGregorian_bounds g1 hv1 hok.1
    have hb2 := rdFromGregorian_bounds g2 hv2 hok.2
    have hIb : (0:Int) ≤
        (dateComponentIntervalDays (rdFromGregorian g1) (rdFromGregorian g2) : Int) ∧
        (dateComponentIntervalDays (rdFromGregorian g1) (rdFromGregorian g2) : Int) ≤
          400000000 := by
      unfold dateComponentIntervalDays
      constructor <;> omega
    rw [wrapVal_eq _ a _ hIb.1 hIb.2 hlo hhi] at h
    constructor
    · intro htrue
      rw [if_pos htrue] at h
      omega
    · intro hfalse
      rw [if_neg (show ¬ dateComponentInvert (rdFromGregorian g1) (rdFromGregorian g2) = true by
        rw [hfalse]; simp)] at h
      omega
  · rw [if_neg hok] at h
    simp at h

theorem claim_C7_witness :
    (dateComponentInvert (rdFromGregorian ⟨2024, 4, 24⟩) (rdFromGregorian ⟨2024, 3, 20⟩) = true →
      (-40 : Int) = -((dateComponentIntervalDays (rdFromGregorian ⟨2024, 4, 24⟩)
        (rdFromGregorian ⟨2024, 3, 20⟩) : Int) + 5)) ∧
    (dateComponentInvert (rdFromGregorian ⟨2024, 4, 24⟩) (rdFromGregorian ⟨2024, 3, 20⟩) = false →
      (-40 : Int) = (dateComponentIntervalDays (rdFromGregorian ⟨2024, 4, 24⟩)
        (rdFromGregorian ⟨2024, 3, 20⟩) : Int) + 5) :=
  claim_C7_adjustment_before_inversion ("1403/02/05".toList) ("1403/01/01".toList) 5 (-40)
    ⟨2024, 4, 24⟩ ⟨2024, 3, 20⟩ (by decide) (by decide) (by decide) (by decide) (by decide)

/-- Claim C8: on a valid Jalali date, `jalali_date_add_months` fails for every
non-positive `months` and succeeds for every strictly positive `months`. -/
theorem claim_C8_addMonths_domain (s : List Char) (p : PDate) (months : Int)
    (h : jalali_date_parse s = some p) :
    (months ≤ 0 → jalali_date_add_months s months = none) ∧
    (0 < months → (jalali_date_add_months s months).isSome) := by
  obtain ⟨hval, hraw⟩ := jalali_date_parse_elim s p h
  have htry : tryNewPersianDate p.y p.m p.d = some p := by
    unfold tryNewPersianDate
    rw [if_pos (by simpa [PDate.valid] using hval)]
  unfold jalali_date_add_months
  rw [hraw]
  simp only [Option.bind_eq_bind, Option.some_bind, htry]
  constructor
  · intro hm
    rw [if_pos hm]
  · intro hm
    rw [if_neg (by omega)]
    have h11 : tryNewPersianDate (addMonthsYM p.y p.m months).1 1 1 =
        some ⟨(addMonthsYM p.y p.m months).1, 1, 1⟩ := by
      unfold tryNewPersianDate persianMonthLen
      norm_num
    rw [h11]
    simp

theorem claim_C8_witness :
    jalali_date_add_months ("1403/06/31".toList) (-3) = none ∧
    (jalali_date_add_months ("1403/06/31".toList) 6).isSome :=
  ⟨(claim_C8_addMonths_domain ("1403/06/31".toList) ⟨1403, 6, 31⟩ (-3) (by decide)).1 (by norm_num),
   (claim_C8_addMonths_domain ("1403/06/31".toList) ⟨1403, 6, 31⟩ 6 (by decide)).2 (by norm_num)⟩

theorem addMonthsClampDay_eq_min (ny : Int) (nm dd : Nat) (h1 : 1 ≤ nm) (h2 : nm ≤ 12)
    (h3 : dd ≤ 31) : addMonthsClampDay ny nm dd = min dd (persianMonthLen ny nm) := by
  unfold addMonthsClampDay persianMonthLen
  cases hL : persianLeap ny <;> simp [hL] <;> split_ifs <;> omega

theorem addMonthsYM_month_bounds (y : Int) (m : Nat) (months : Int)
    (hm1 : 1 ≤ m) (hm2 : m ≤ 12) (hpos : 0 < months) :
    1 ≤ (addMonthsYM y m months).2 ∧ (addMonthsYM y m months).2 ≤ 12 := by
  simp only [addMonthsYM, if_pos (show (0:Int) ≤ months by omega)]
  split_ifs <;> dsimp <;> omega

/-- Claim C3: on a valid date and strictly positive `months`,
`jalali_date_add_months` produces exactly the carried year/month with the day
clamped to `min day (length of the destination month in the destination
year)`. -/
theorem claim_C3_addMonths_clamp (s : List Char) (y : Int) (m d : Nat) (months : Int)
    (hraw : jalali_date_parse_raw s = some (y, m, d))
    (hval : 1 ≤ m ∧ m ≤ 12 ∧ 1 ≤ d ∧ d ≤ persianMonthLen y m)
    (hpos : 0 < months) :
    jalali_date_add_months s months =
      some (formatJalali ⟨(addMonthsYM y m months).1, (addMonthsYM y m months).2,
        min d (persianMonthLen (addMonthsYM y m months).1 (addMonthsYM y m months).2)⟩) := by
  have hd31 : d ≤ 31 := by
    have h4 := hval.2.2.2
    unfold persianMonthLen at h4
    split_ifs at h4 <;> omega
  have hnm := addMonthsYM_month_bounds y m months hval.1 hval.2.1 hpos
  have htry : tryNewPersianDate y m d = some ⟨y, m, d⟩ := by
    unfold tryNewPersianDate
    rw [if_pos hval]
  have h11 : tryNewPersianDate (addMonthsYM y m months).1 1 1 =
      some ⟨(addMonthsYM y m months).1, 1, 1⟩ := by
    unfold tryNewPersianDate persianMonthLen
    norm_num
  unfold jalali_date_add_months
  rw [hraw]
  simp only [Option.bind_eq_bind, Option.some_bind, htry, h11]
  rw [if_neg (by omega)]
  rw [addMonthsClampDay_eq_min (addMonthsYM y m months).1 (addMonthsYM y m months).2 d
    hnm.1 hnm.2 hd31]

theorem claim_C3_witness :
    jalali_date_add_months ("1403/06/31".toList) 6 =
      some (formatJalali ⟨(addMonthsYM 1403 6 6).1, (addMonthsYM 1403 6 6).2,
        min 31 (persianMonthLen (addMonthsYM 1403 6 6).1 (addMonthsYM 1403 6 6).2)⟩) :=
  claim_C3_addMonths_clamp ("1403/06/31".toList) 1403 6 31 6 (by decide) (by decide) (by norm_num)

theorem gregYearBounds_aux (z era doe w d1 x d2 v doy mp : Int)
    (hz1 : -95746190 ≤ z) (hz2 : z ≤ 95746069)
    (hera : era = z / 146097)
    (hdoe : doe = z - era * 146097)
    (hw : w = min 3 (doe / 36524))
    (hd1 : d1 = doe - 36524 * w)
    (hx : x = min 24 (d1 / 1461))
    (hd2 : d2 = d1 - 1461 * x)
    (hv : v = min 3 (d2 / 365))
    (hdoy : doy = d2 - 365 * v)
    (hmp : mp = (5 * doy + 2) / 153) :
    -262144 ≤ (if (if mp < 10 then mp + 3 else mp - 9) ≤ 2
        then era * 400 + (100 * w + 4 * x + v) + 1
        else era * 400 + (100 * w + 4 * x + v)) ∧
      (if (if mp < 10 then mp + 3 else mp - 9) ≤ 2
        then era * 400 + (100 * w + 4 * x + v) + 1
        else era * 400 + (100 * w + 4 * x + v)) ≤ 262143 := by
  have heraB : -656 ≤ era ∧ era ≤ 655 := by omega
  have hdoeB : 0 ≤ doe ∧ doe ≤ 146096 := by omega
  have hwB : 0 ≤ w ∧ w ≤ 3 ∧ 36524 * w ≤ doe := by omega
  have hd1B : 0 ≤ d1 ∧ d1 ≤ 36524 := by omega
  have hxB : 0 ≤ x ∧ x ≤ 24 ∧ 1461 * x ≤ d1 := by omega
  have hd2B : 0 ≤ d2 ∧ d2 ≤ 1460 := by omega
  have hvB : 0 ≤ v ∧ v ≤ 3 ∧ 365 * v ≤ d2 := by omega
  have hdoyB : 0 ≤ doy ∧ doy ≤ 365 := by omega
  have hmpB : 0 ≤ mp ∧ mp ≤ 11 := by omega
  constructor
  · by_cases h10 : mp < 10
    · rw [if_pos h10]
      rw [if_neg (show ¬ (mp + 3 ≤ 2) by omega)]
      by_cases hE : era = -656
      · by_cases hW : w = 2
        · by_cases hX : x = 13
          · omega
          · omega
        · omega
      · omega
    · rw [if_neg h10]
      rw [if_pos (show mp - 9 ≤ 2 by omega)]
      by_cases hE : era = -656
      · by_cases hW : w = 2
        · by_cases hX : x = 13
          · omega
          · omega
        · omega
      · omega
  · by_cases h10 : mp < 10
    · rw [if_pos h10]
      rw [if_neg (show ¬ (mp + 3 ≤ 2) by omega)]
      by_cases hE : era = 655
      · by_cases hW : w = 1
        · by_cases hX : x = 10
          · omega
          · omega
        · omega
      · omega
    · rw [if_neg h10]
      rw [if_pos (show mp - 9 ≤ 2 by omega)]
      by_cases hE : era = 655
      · by_cases hW : w = 1
        · by_cases hX : x = 10
          · by_cases hV : v = 3
            · omega
            · omega
          · omega
        · omega
      · omega

theorem chronoYearOK_of_rd (rd : Int) (hlo : rdMinChrono ≤ rd) (hhi : rd ≤ rdMaxChrono) :
    chronoYearOK (gregorianFromFixed rd).y := by
  rw [rdMinChrono_eq] at hlo
  rw [rdMaxChrono_eq] at hhi
  have H := gregYearBounds_aux (rd + 305) ((rd + 305) / 146097) _ _ _ _ _ _ _ _
    (by omega) (by omega) rfl rfl rfl rfl rfl rfl rfl rfl rfl
  unfold chronoYearOK
  simp only [gregorianFromFixed, apply_ite GDate.y]
  exact H

theorem addDaysInternal_elim (s : List Char) (n : Int) (p' : PDate)
    (h : jalali_date_add_days_internal s n = some p') :
    ∃ g, jalali_date_to_gregorian_internal s = some g ∧ chronoYearOK g.y ∧
      rdMinChrono ≤ rdFromGregorian g + n ∧ rdFromGregorian g + n ≤ rdMaxChrono ∧
      p' = persianFromFixed (rdFromGregorian g + n) := by
  unfold jalali_date_add_days_internal at h
  cases hg : jalali_date_to_gregorian_internal s with
  | none => rw [hg] at h; simp at h
  | some g =>
    rw [hg] at h
    simp only [Option.bind_eq_bind, Option.some_bind] at h
    split_ifs at h with h1 h2
    · simp only [Option.some.injEq] at h
      exact ⟨g, rfl, h1, h2.1, h2.2, h.symm⟩

/-- Claim C4: whenever `jalali_date_add_days` succeeds on `(D, n)` and the
result stays within the text-representable range (its year fits the
non-negative `i32` range), differencing `D` against the produced text returns
exactly `n`. -/
theorem claim_C4_diff_addDays (s : List Char) (n : Int) (p' : PDate) (R : List Char)
    (hadd : jalali_date_add_days_internal s n = some p')
    (hR : jalali_date_add_days s n = some R)
    (hy0 : 0 ≤ p'.y) (hy1 : p'.y ≤ 2147483647) :
    jalali_date_diff s R = some n := by
  obtain ⟨g, hg, hok, hlo, hhi, hp'⟩ := addDaysInternal_elim s n p' hadd
  have hRf : R = formatJalali p' := by
    unfold jalali_date_add_days at hR
    rw [hadd] at hR
    simp only [Option.map_some', Option.some.injEq] at hR
    exact hR.symm
  have hval' : p'.valid := by
    rw [hp']
    exact (persianFromFixed_sound _).1
  have hrd' : rdFromPersian p' = rdFromGregorian g + n := by
    rw [hp']
    exact (persianFromFixed_sound _).2
  have hparse' : jalali_date_parse R = some p' := by
    rw [hRf]
    exact jalali_reparse p' hval' hy0 hy1
  have hint' : jalali_date_to_gregorian_internal R =
      some (gregorianFromFixed (rdFromPersian p')) := by
    unfold jalali_date_to_gregorian_internal
    rw [hparse']
    rfl
  have hok' : chronoYearOK (gregorianFromFixed (rdFromPersian p')).y := by
    rw [hrd']
    exact chronoYearOK_of_rd _ hlo hhi
  have hgg : rdFromGregorian (gregorianFromFixed (rdFromPersian p')) = rdFromPersian p' :=
    (gregorianFromFixed_sound _).2
  obtain ⟨p0, hp0, hge0⟩ := internal_elim s g hg
  have hgval : g.valid := by rw [hge0]; exact (gregorianFromFixed_sound _).1
  have hbg := rdFromGregorian_bounds g hgval hok
  have hlo2 : (-95746495 : Int) ≤ rdFromGregorian g + n := by
    rw [rdMinChrono_eq] at hlo
    exact hlo
  have hhi2 : rdFromGregorian g + n ≤ 95745764 := by
    rw [rdMaxChrono_eq] at hhi
    exact hhi
  unfold jalali_date_diff
  rw [diffWA_eval s R g (gregorianFromFixed (rdFromPersian p')) 0 hg hint']
  rw [if_pos ⟨hok, hok'⟩]
  rw [hgg, hrd']
  have hIb : (0:Int) ≤
      (dateComponentIntervalDays (rdFromGregorian g) (rdFromGregorian g + n) : Int) ∧
      (dateComponentIntervalDays (rdFromGregorian g) (rdFromGregorian g + n) : Int) ≤
        400000000 := by
    unfold dateComponentIntervalDays
    constructor <;> omega
  rw [wrapVal_eq _ 0 _ hIb.1 hIb.2 (by omega) (by omega)]
  unfold dateComponentIntervalDays dateComponentInvert
  simp only [decide_eq_true_eq]
  split_ifs with hlt <;> simp only [Option.some.injEq] <;> omega

theorem claim_C4_witness : jalali_date_diff ("1403/05/28".toList) ("1403/05/30".toList) = some 2 :=
  claim_C4_diff_addDays ("1403/05/28".toList) 2 ⟨1403, 5, 30⟩ ("1403/05/30".toList)
    (by decide) (by decide) (by decide) (by decide)

theorem persianMonthLen_ge (y : Int) (m : Nat) : 29 ≤ persianMonthLen y m := by
  unfold persianMonthLen
  split_ifs <;> omega

theorem addMonths_elim (s : List Char) (k : Int) (t : List Char)
    (h : jalali_date_add_months s k = some t) :
    ∃ y m d, jalali_date_parse_raw s = some (y, m, d) ∧
      (1 ≤ m ∧ m ≤ 12 ∧ 1 ≤ d ∧ d ≤ persianMonthLen y m) ∧ 0 < k ∧
      t = formatJalali ⟨(addMonthsYM y m k).1, (addMonthsYM y m k).2,
        addMonthsClampDay (addMonthsYM y m k).1 (addMonthsYM y m k).2 d⟩ := by
  simp only [jalali_date_add_months] at h
  cases hraw : jalali_date_parse_raw s with
  | none => rw [hraw] at h; simp at h
  | some v =>
    obtain ⟨y, m, d⟩ := v
    rw [hraw] at h
    simp only [Option.bind_eq_bind, Option.some_bind] at h
    by_cases hc : 1 ≤ m ∧ m ≤ 12 ∧ 1 ≤ d ∧ d ≤ persianMonthLen y m
    · rw [show tryNewPersianDate y m d = some ⟨y, m, d⟩ by
        unfold tryNewPersianDate; rw [if_pos hc]] at h
      simp only [Option.some_bind] at h
      by_cases hk : k ≤ 0
      · rw [if_pos hk] at h; simp at h
      · rw [if_neg hk] at h
        rw [show tryNewPersianDate (addMonthsYM y m k).1 1 1 =
            some ⟨(addMonthsYM y m k).1, 1, 1⟩ by
          unfold tryNewPersianDate persianMonthLen; norm_num] at h
        simp only [Option.some_bind, Option.some.injEq] at h
        exact ⟨y, m, d, rfl, hc, by omega, h.symm⟩
    · rw [show tryNewPersianDate y m d = none by
        unfold tryNewPersianDate; rw [if_neg hc]] at h
      simp at h

/-- Claim C9, counterexample to the original statement: the successful call
`gregorian_date_to_jalali "0616-03-21"` produces the text `00-5/01/01`
(the `{:0>4}` fill pads the minus sign of the negative Jalali year), and that
output is not itself parseable as a Jalali date. -/
theorem claim_C9_cex :
    gregorian_date_to_jalali ("0616-03-21".toList) = some ("00-5/01/01".toList) ∧
    jalali_date_parse ("00-5/01/01".toList) = none := by decide

/-- Claim C9 (amended): every Jalali text produced by a successful call to
`gregorian_date_to_jalali`, `jalali_date_add_days`, `jalali_date_add_months`
or `jalali_date_now` is the canonical `{:0>4}/{:0>2}/{:0>2}` rendering of the
computed date, and — provided the computed year lies in `[0, 2147483647]` —
it re-parses to exactly that date; outputs with a negative year (rendered
with the sign padded into the digits, e.g. `00-5/01/01`) are not closed
under re-parsing. -/
theorem claim_C9_output_reparse :
    (∀ s g t, gregorian_date_parse s = some g → gregorian_date_to_jalali s = some t →
      t = formatJalali (persianFromFixed (rdFromGregorian g)) ∧
      (0 ≤ (persianFromFixed (rdFromGregorian g)).y →
        (persianFromFixed (rdFromGregorian g)).y ≤ 2147483647 →
        jalali_date_parse t = some (persianFromFixed (rdFromGregorian g)))) ∧
    (∀ s n p t, jalali_date_add_days_internal s n = some p →
      jalali_date_add_days s n = some t →
      t = formatJalali p ∧
      (0 ≤ p.y → p.y ≤ 2147483647 → jalali_date_parse t = some p)) ∧
    (∀ s k y m d t, jalali_date_parse_raw s = some (y, m, d) →
      jalali_date_add_months s k = some t →
      t = formatJalali ⟨(addMonthsYM y m k).1, (addMonthsYM y m k).2,
        addMonthsClampDay (addMonthsYM y m k).1 (addMonthsYM y m k).2 d⟩ ∧
      (0 ≤ (addMonthsYM y m k).1 → (addMonthsYM y m k).1 ≤ 2147483647 →
        jalali_date_parse t = some ⟨(addMonthsYM y m k).1, (addMonthsYM y m k).2,
          addMonthsClampDay (addMonthsYM y m k).1 (addMonthsYM y m k).2 d⟩)) ∧
    (∀ g t, jalali_date_now g = some t →
      t = formatJalali (persianFromFixed (rdFromGregorian g)) ∧
      (0 ≤ (persianFromFixed (rdFromGregorian g)).y →
        (persianFromFixed (rdFromGregorian g)).y ≤ 2147483647 →
        jalali_date_parse t = some (persianFromFixed (rdFromGregorian g)))) := by
  refine ⟨?_, ?_, ?_, ?_⟩
  · intro s g t hg ht
    unfold gregorian_date_to_jalali at ht
    rw [hg] at ht
    simp only [Option.map_some', Option.some.injEq] at ht
    refine ⟨ht.symm, fun h0 h1 => ?_⟩
    rw [← ht]
    exact jalali_reparse _ (persianFromFixed_sound _).1 h0 h1
  · intro s n p t hi ht
    unfold jalali_date_add_days at ht
    rw [hi] at ht
    simp only [Option.map_some', Option.some.injEq] at ht
    obtain ⟨g, _, _, _, _, hp⟩ := addDaysInternal_elim s n p hi
    have hval : p.valid := by
      rw [hp]
      exact (persianFromFixed_sound _).1
    refine ⟨ht.symm, fun h0 h1 => ?_⟩
    rw [← ht]
    exact jalali_reparse _ hval h0 h1
  · intro s k y m d t hraw ht
    obtain ⟨y', m', d', hraw', hval', hk', ht'⟩ := addMonths_elim s k t ht
    rw [hraw] at hraw'
    simp only [Option.some.injEq, Prod.mk.injEq] at hraw'
    obtain ⟨hy, hm, hd⟩ := hraw'
    subst hy hm hd
    have hd31 : d ≤ 31 := by
      have h4 := hval'.2.2.2
      unfold persianMonthLen at h4
      split_ifs at h4 <;> omega
    have hnm := addMonthsYM_month_bounds y m k hval'.1 hval'.2.1 hk'
    have hclamp := addMonthsClampDay_eq_min (addMonthsYM y m k).1 (addMonthsYM y m k).2 d
      hnm.1 hnm.2 hd31
    have hlen := persianMonthLen_ge (addMonthsYM y m k).1 (addMonthsYM y m k).2
    have hval : (⟨(addMonthsYM y m k).1, (addMonthsYM y m k).2,
        addMonthsClampDay (addMonthsYM y m k).1 (addMonthsYM y m k).2 d⟩ : PDate).valid := by
      refine ⟨hnm.1, hnm.2, ?_, ?_⟩ <;> dsimp only <;> rw [hclamp] <;> omega
    refine ⟨ht', fun h0 h1 => ?_⟩
    rw [ht']
    exact jalali_reparse _ hval h0 h1
  · intro g t ht
    unfold jalali_date_now at ht
    cases htry : tryNewGregorianDate g.y g.m g.d with
    | none => rw [htry] at ht; simp at ht
    | some g2 =>
      rw [htry] at ht
      simp only [Option.map_some', Option.some.injEq] at ht
      have hg2 : g2 = g := by
        unfold tryNewGregorianDate at htry
        by_cases hc : 1 ≤ g.m ∧ g.m ≤ 12 ∧ 1 ≤ g.d ∧ g.d ≤ gregMonthLen g.y g.m
        · rw [if_pos hc] at htry
          simp only [Option.some.injEq] at htry
          exact htry.symm
        · rw [if_neg hc] at htry
          simp at htry
      rw [hg2] at ht
      refine ⟨ht.symm, fun h0 h1 => ?_⟩
      rw [← ht]
      exact jalali_reparse _ (persianFromFixed_sound _).1 h0 h1

theorem claim_C9_witness :
    jalali_date_parse ("1403/05/29".toList) =
      some (persianFromFixed (rdFromGregorian ⟨2024, 8, 19⟩)) :=
  (claim_C9_output_reparse.2.2.2 ⟨2024, 8, 19⟩ ("1403/05/29".toList)
    (by decide)).2 (by decide) (by decide)

/-- Claim C1, counterexample to the original statement: `1403/5/8` is a valid
Jalali date text (it parses successfully), but the Gregorian round trip
returns the padded rendering `1403/05/08`, not the original text. -/
theorem claim_C1_cex :
    jalali_date_parse ("1403/5/8".toList) = some ⟨1403, 5, 8⟩ ∧
    jalali_date_to_gregorian ("1403/5/8".toList) = some ("2024-07-29".toList) ∧
    gregorian_date_to_jalali ("2024-07-29".toList) = some ("1403/05/08".toList) ∧
    ("1403/05/08".toList ≠ "1403/5/8".toList) := by decide

/-- Claim C1 (amended): the round trip is the identity on canonically
formatted texts: for a valid Jalali date and the valid Gregorian date that
corresponds to it through the day-count pivot (years within the
text-representable range `[0, 2147483647]` on both sides),
`jalali_date_to_gregorian` maps the canonical Jalali text to the canonical
Gregorian text and `gregorian_date_to_jalali` maps it back, in both
directions. -/
theorem claim_C1_round_trip (p : PDate) (g : GDate)
    (hp : p.valid) (hg : g.valid)
    (hpy0 : 0 ≤ p.y) (hpy1 : p.y ≤ 2147483647)
    (hgy0 : 0 ≤ g.y) (hgy1 : g.y ≤ 2147483647) :
    (gregorianFromFixed (rdFromPersian p) = g →
      jalali_date_to_gregorian (formatJalali p) = some (formatGregorian g) ∧
      gregorian_date_to_jalali (formatGregorian g) = some (formatJalali p)) ∧
    (persianFromFixed (rdFromGregorian g) = p →
      gregorian_date_to_jalali (formatGregorian g) = some (formatJalali p) ∧
      jalali_date_to_gregorian (formatJalali p) = some (formatGregorian g)) := by
  have hparse := jalali_reparse p hp hpy0 hpy1
  have hgparse := greg_reparse g hg hgy0 hgy1
  constructor
  · intro hA
    constructor
    · unfold jalali_date_to_gregorian jalali_date_to_gregorian_internal
      rw [hparse]
      simp only [Option.map_some']
      rw [hA]
    · unfold gregorian_date_to_jalali
      rw [hgparse]
      simp only [Option.map_some', Option.some.injEq]
      have hrd : rdFromGregorian g = rdFromPersian p := by
        rw [← hA]
        exact (gregorianFromFixed_sound _).2
      rw [hrd, persianFromFixed_rd p hp]
  · intro hB
    constructor
    · unfold gregorian_date_to_jalali
      rw [hgparse]
      simp only [Option.map_some', Option.some.injEq]
      rw [hB]
    · unfold jalali_date_to_gregorian jalali_date_to_gregorian_internal
      rw [hparse]
      simp only [Option.map_some']
      have hrd : rdFromPersian p = rdFromGregorian g := by
        rw [← hB]
        exact (persianFromFixed_sound _).2
      rw [hrd, gregorianFromFixed_rd g hg]

theorem claim_C1_witness :
    jalali_date_to_gregorian (formatJalali ⟨1403, 2, 5⟩) =
        some (formatGregorian ⟨2024, 4, 24⟩) ∧
      gregorian_date_to_jalali (formatGregorian ⟨2024, 4, 24⟩) =
        some (formatJalali ⟨1403, 2, 5⟩) :=
  (claim_C1_round_trip ⟨1403, 2, 5⟩ ⟨2024, 4, 24⟩ (by decide) (by decide) (by decide)
    (by decide) (by decide) (by decide)).1 (by decide)

theorem rdPersian_prev_newyear (y : Int) :
    rdFromPersian ⟨y - 1, 12, persianMonthLen (y - 1) 12⟩ = rdFromPersian ⟨y, 1, 1⟩ - 1 := by
  unfold rdFromPersian pMonthOff persianMonthLen persianLeap
  dsimp only
  simp only [decide_eq_true_eq]
  obtain ⟨k, j, hj0, hj32, rfl⟩ : ∃ k j, 0 ≤ j ∧ j < 33 ∧ y = 33 * k + j :=
    ⟨y / 33, y % 33, by omega, by omega, by omega⟩
  split_ifs <;> interval_cases j <;> omega

theorem persian_prev_of_newyear (y : Int) :
    persianFromFixed (rdFromPersian ⟨y, 1, 1⟩ - 1) =
      ⟨y - 1, 12, persianMonthLen (y - 1) 12⟩ := by
  rw [← rdPersian_prev_newyear y]
  apply persianFromFixed_rd
  simp only [PDate.valid]
  have hL := persianMonthLen_ge (y - 1) 12
  omega

theorem step45_eq (d : Nat) (anchor : Int) (h0 : 0 ≤ anchor) (h1 : anchor ≤ 2147483647) :
    (if 1 ≤ anchor ∧ anchor ≤ 31 then
        if d = i32ToU32 anchor then some (pstateText .End)
        else if d = i32ToU32 anchor + 1 then some (pstateText .Start)
        else some (pstateText .Middle)
      else some (pstateText .Unknown)) =
    some (pstateText (if 1 ≤ anchor ∧ anchor ≤ 31 then
        if (d : Int) = anchor then PState.End
        else if (d : Int) = anchor + 1 then PState.Start
        else PState.Middle
      else PState.Unknown)) := by
  have hu : i32ToU32 anchor = anchor.toNat := by
    unfold i32ToU32
    omega
  by_cases h31 : 1 ≤ anchor ∧ anchor ≤ 31
  · rw [if_pos h31, if_pos h31]
    by_cases hdE : (d : Int) = anchor
    · rw [if_pos (show d = i32ToU32 anchor by rw [hu]; omega), if_pos hdE]
    · rw [if_neg (show ¬ d = i32ToU32 anchor by rw [hu]; omega), if_neg hdE]
      by_cases hdS : (d : Int) = anchor + 1
      · rw [if_pos (show d = i32ToU32 anchor + 1 by rw [hu]; omega), if_pos hdS]
      · rw [if_neg (show ¬ d = i32ToU32 anchor + 1 by rw [hu]; omega), if_neg hdS]
  · rw [if_neg h31, if_neg h31]

/-- Claim C2, counterexample to the original statement: on the valid date
`1403/01/31` (a month end) with anchor `-1`, the program compares the day
against the two's-complement cast `to_u32(-1) = 4294967295` and returns
`End`, while the §4.5 cascade read with plain integer comparisons reaches
step 5 and classifies the date as `Unknown`. -/
theorem claim_C2_cex :
    jalali_date_parse ("1403/01/31".toList) = some ⟨1403, 1, 31⟩ ∧
    jalali_date_period_state ("1403/01/31".toList) (-1) = some (pstateText PState.End) ∧
    specPeriodState ⟨1403, 1, 31⟩ (-1) = PState.Unknown := by decide

/-- Claim C2 (amended): for a parseable date and a non-negative `i32` anchor
(where the `to_u32` cast is the identity), and provided the previous-day
computation of the month-1 rule does not panic when it is reached,
`jalali_date_period_state` returns exactly the text of the §4.5 cascade's
classification; negative anchors diverge from the cascade through the cast. -/
theorem claim_C2_period_cascade (s : List Char) (p : PDate) (anchor : Int)
    (hparse : jalali_date_parse s = some p)
    (ha0 : 0 ≤ anchor) (ha1 : anchor ≤ 2147483647)
    (hprev : p.m = 1 → p.d = 1 → anchor < 30 →
      jalali_date_add_days_internal s (-1) ≠ none) :
    jalali_date_period_state s anchor = some (pstateText (specPeriodState p anchor)) := by
  obtain ⟨y, m, d⟩ := p
  dsimp only at hprev
  have hu : i32ToU32 anchor = anchor.toNat := by
    unfold i32ToU32
    omega
  have hint : jalali_date_to_gregorian_internal s =
      some (gregorianFromFixed (rdFromPersian ⟨y, m, d⟩)) := by
    unfold jalali_date_to_gregorian_internal
    rw [hparse]
    rfl
  have hMEiff : ((d = 29 ∧ m = 12 ∧ persianLeap y = false) ∨
      (d = 30 ∧ 7 ≤ m ∧ (m ≤ 11 ∨ (m = 12 ∧ persianLeap y = true))) ∨
      (d = 31 ∧ m ≤ 6)) ↔
      ((m = 12 ∧ d = 29 ∧ persianLeap y = false) ∨
      (d = 30 ∧ (7 ≤ m ∧ m ≤ 11 ∨ (m = 12 ∧ persianLeap y = true))) ∨
      (d = 31 ∧ 1 ≤ m ∧ m ≤ 6)) := by
    have hval := (jalali_date_parse_elim s _ hparse).1
    simp only [PDate.valid] at hval
    cases hL : persianLeap y <;> simp [hL] <;> omega
  unfold jalali_date_period_state
  rw [hparse]
  simp only [specPeriodState]
  dsimp only
  by_cases hP1 : ((d = 29 ∧ m = 12 ∧ persianLeap y = false) ∨
      (d = 30 ∧ 7 ≤ m ∧ (m ≤ 11 ∨ (m = 12 ∧ persianLeap y = true))) ∨
      (d = 31 ∧ m ≤ 6)) ∧ d ≤ i32ToU32 anchor
  · rw [if_pos hP1]
    rw [if_pos (show ((m = 12 ∧ d = 29 ∧ persianLeap y = false) ∨
        (d = 30 ∧ (7 ≤ m ∧ m ≤ 11 ∨ (m = 12 ∧ persianLeap y = true))) ∨
        (d = 31 ∧ 1 ≤ m ∧ m ≤ 6)) ∧ (d : Int) ≤ anchor from
        ⟨hMEiff.mp hP1.1, by have h := hP1.2; rw [hu] at h; omega⟩)]
  · rw [if_neg hP1]
    rw [if_neg (show ¬(((m = 12 ∧ d = 29 ∧ persianLeap y = false) ∨
        (d = 30 ∧ (7 ≤ m ∧ m ≤ 11 ∨ (m = 12 ∧ persianLeap y = true))) ∨
        (d = 31 ∧ 1 ≤ m ∧ m ≤ 6)) ∧ (d : Int) ≤ anchor) from
        fun hc => hP1 ⟨hMEiff.mpr hc.1, by have h := hc.2; rw [hu]; omega⟩)]
    by_cases hd1 : d = 1
    · rw [if_pos hd1]
      by_cases hm1 : m = 1
      · rw [if_pos hm1]
        by_cases h30 : 30 ≤ anchor
        · rw [if_pos h30]
          rw [if_pos (show d = 1 ∧ m = 1 ∧
              (30 ≤ anchor ∨ anchor = (persianMonthLen (y - 1) 12 : Int)) from
              ⟨hd1, hm1, Or.inl h30⟩)]
        · rw [if_neg h30]
          cases hAD : jalali_date_add_days_internal s (-1) with
          | none => exact absurd hAD (hprev hm1 hd1 (by omega))
          | some prev =>
            obtain ⟨g, hg, hok, hlo', hhi', hpr⟩ := addDaysInternal_elim s (-1) prev hAD
            rw [hint] at hg
            simp only [Option.some.injEq] at hg
            have hrdg : rdFromGregorian g = rdFromPersian ⟨y, m, d⟩ := by
              rw [← hg]
              exact (gregorianFromFixed_sound _).2
            have hprd : prev = ⟨y - 1, 12, persianMonthLen (y - 1) 12⟩ := by
              rw [hpr, hrdg, hm1, hd1]
              have harg : rdFromPersian ⟨y, 1, 1⟩ + -1 = rdFromPersian ⟨y, 1, 1⟩ - 1 := by
                ring
              rw [harg]
              exact persian_prev_of_newyear y
            subst hprd
            dsimp only
            by_cases heq : anchor = (persianMonthLen (y - 1) 12 : Int)
            · rw [if_pos (show i32ToU32 anchor = persianMonthLen (y - 1) 12 by
                rw [hu]; omega)]
              rw [if_pos (show d = 1 ∧ m = 1 ∧
                  (30 ≤ anchor ∨ anchor = (persianMonthLen (y - 1) 12 : Int)) from
                  ⟨hd1, hm1, Or.inr heq⟩)]
            · rw [if_neg (show ¬ i32ToU32 anchor = persianMonthLen (y - 1) 12 by
                rw [hu]; omega)]
              rw [if_neg (show ¬(d = 1 ∧ m = 1 ∧
                  (30 ≤ anchor ∨ anchor = (persianMonthLen (y - 1) 12 : Int))) from
                  fun hc => hc.2.2.elim (fun h => h30 h) (fun h => heq h))]
              rw [if_neg (show ¬(d = 1 ∧ ((2 ≤ m ∧ m ≤ 7 ∧ anchor = 31) ∨
                  (8 ≤ m ∧ m ≤ 12 ∧ 30 ≤ anchor))) from
                  fun hc => by rcases hc.2 with ⟨h2, _, ha⟩ | ⟨h8, _, ha⟩ <;> omega)]
              exact step45_eq d anchor ha0 ha1
      · rw [if_neg hm1]
        by_cases hc2 : (2 ≤ m ∧ m ≤ 7 ∧ anchor = 31) ∨ (8 ≤ m ∧ m ≤ 12 ∧ 30 ≤ anchor)
        · rw [if_pos hc2]
          rw [if_neg (show ¬(d = 1 ∧ m = 1 ∧
              (30 ≤ anchor ∨ anchor = (persianMonthLen (y - 1) 12 : Int))) from
              fun hc => hm1 hc.2.1)]
          rw [if_pos (show d = 1 ∧ ((2 ≤ m ∧ m ≤ 7 ∧ anchor = 31) ∨
              (8 ≤ m ∧ m ≤ 12 ∧ 30 ≤ anchor)) from ⟨hd1, hc2⟩)]
        · rw [if_neg hc2]
          rw [if_neg (show ¬(d = 1 ∧ m = 1 ∧
              (30 ≤ anchor ∨ anchor = (persianMonthLen (y - 1) 12 : Int))) from
              fun hc => hm1 hc.2.1)]
          rw [if_neg (show ¬(d = 1 ∧ ((2 ≤ m ∧ m ≤ 7 ∧ anchor = 31) ∨
              (8 ≤ m ∧ m ≤ 12 ∧ 30 ≤ anchor))) from fun hc => hc2 hc.2)]
          exact step45_eq d anchor ha0 ha1
    · rw [if_neg hd1]
      rw [if_neg (show ¬(d = 1 ∧ m = 1 ∧
          (30 ≤ anchor ∨ anchor = (persianMonthLen (y - 1) 12 : Int))) from
          fun hc => hd1 hc.1)]
      rw [if_neg (show ¬(d = 1 ∧ ((2 ≤ m ∧ m ≤ 7 ∧ anchor = 31) ∨
          (8 ≤ m ∧ m ≤ 12 ∧ 30 ≤ anchor))) from fun hc => hd1 hc.1)]
      exact step45_eq d anchor ha0 ha1

theorem claim_C2_witness :
    jalali_date_period_state ("1403/05/29".toList) 29 =
      some (pstateText (specPeriodState ⟨1403, 5, 29⟩ 29)) :=
  claim_C2_period_cascade ("1403/05/29".toList) ⟨1403, 5, 29⟩ 29 (by decide) (by decide)
    (by decide) (fun hm => absurd hm (by decide))
